import Mathlib

/-!
Verification of the configuration patching and code scaffolding engine of the
payloadcmsdirectory/cli repository.

Source text is modelled as `List Char`.  Each definition below is a direct
translation of one function of the TypeScript source; the JavaScript regular
expressions used by the source are hand-compiled to explicit scanners with the
same matching semantics (leftmost match, lazy or greedy quantifiers as in the
pattern, ASCII whitespace model).  File systems are modelled as association
lists from path to content, and the fallible file operations of the source are
modelled with explicit fault flags.
-/

/-- Characters of a string literal, as the character list all definitions work on. -/
def cs (s : String) : List Char := s.data

/-- ASCII whitespace, the model of the whitespace class of JavaScript regular
expressions and of trimming. -/
def isWsCh (c : Char) : Bool :=
  c == ' ' || c == '\t' || c == '\n' || c == '\r' || c == '\x0b' || c == '\x0c'

/-- Substring test: does `pat` occur anywhere in the text (the model of
`String.prototype.includes`). -/
def containsSub (pat : List Char) : List Char → Bool
  | [] => pat.isPrefixOf []
  | s@(_ :: t) => pat.isPrefixOf s || containsSub pat t

/-- Model of the whitespace trimming done by `String.prototype.trim`. -/
def trimStr (s : List Char) : List Char :=
  ((s.dropWhile isWsCh).reverse.dropWhile isWsCh).reverse

/-- Skip a maximal whitespace run, then demand a comma; used for the pattern
comma-whitespace-comma and for the pattern left-bracket-whitespace-comma. -/
def skipWsThenComma (s : List Char) : Option (List Char) :=
  match s.dropWhile isWsCh with
  | ',' :: rest => some rest
  | _ => none

/-- Worker for the comma collapsing pass.  In normal mode (`none`) characters
are copied; after an emitted comma (`some pending`, where pending holds the
whitespace seen since that comma, reversed) a further comma completes a match
of comma-whitespace-comma, whose whitespace and second comma are dropped, and
scanning resumes in normal mode after the match, exactly as the global
JavaScript replace resumes after a replacement. -/
def collapseM : Option (List Char) → List Char → List Char
  | none, [] => []
  | none, c :: t =>
    if c == ',' then ',' :: collapseM (some []) t else c :: collapseM none t
  | some p, [] => p.reverse
  | some p, c :: t =>
    if c == ',' then collapseM none t
    else if isWsCh c then collapseM (some (c :: p)) t
    else p.reverse ++ c :: collapseM none t

/-- Model of `replace(/,\s*,/g, ",")`: the global scan that collapses one
comma-whitespace-comma pair at a time, resuming after each replacement. -/
def collapseCommas (s : List Char) : List Char := collapseM none s

/-- Model of `replace(/,\s*$/, "")`: drop the first comma that is followed only
by whitespace up to the end of the text. -/
def removeTrailingComma : List Char → List Char
  | [] => []
  | c :: t =>
    if c == ',' && t.all isWsCh then [] else c :: removeTrailingComma t

/-- Skip a maximal whitespace run, then demand a closing bracket. -/
def skipWsThenRB (s : List Char) : Option (List Char) :=
  match s.dropWhile isWsCh with
  | ']' :: rest => some rest
  | _ => none

/-- Model of `replace(/\[\s*,/, "[")`: remove the whitespace and comma of the
first match of left-bracket-whitespace-comma. -/
def remCommaAfterLB : List Char → List Char
  | [] => []
  | c :: t =>
    if c == '[' then
      match skipWsThenComma t with
      | some rest => '[' :: rest
      | none => '[' :: remCommaAfterLB t
    else c :: remCommaAfterLB t

/-- Model of `replace(/,\s*\]/, "]")`: replace the first match of
comma-whitespace-right-bracket by the bracket alone. -/
def remCommaBeforeRB : List Char → List Char
  | [] => []
  | c :: t =>
    if c == ',' then
      match skipWsThenRB t with
      | some rest => ']' :: rest
      | none => c :: remCommaBeforeRB t
    else c :: remCommaBeforeRB t

/-- The cleanup pass of `updatePayloadConfig` (update.ts lines 172 to 176):
collapse doubled commas, remove a comma after an opening bracket, remove a
comma before a closing bracket, each as the source applies them. -/
def cleanupContent (s : List Char) : List Char :=
  remCommaBeforeRB (remCommaAfterLB (collapseCommas s))

/-- Whitespace-star scanner with continuation: succeeds if the continuation
holds after some prefix of the whitespace run. -/
def wsStarThen (cont : List Char → Bool) (s : List Char) : Bool :=
  cont s ||
    match s with
    | c :: t => isWsCh c && wsStarThen cont t
    | [] => false

/-- Whitespace-plus scanner with continuation: at least one whitespace
character, then as `wsStarThen`. -/
def wsPlusThen (cont : List Char → Bool) (s : List Char) : Bool :=
  match s with
  | c :: t => isWsCh c && wsStarThen cont t
  | [] => false

/-- Lazy dot-star scanner: the continuation must hold after some prefix that
contains no line break (the dot of a JavaScript regular expression does not
match a line break). -/
def scanNoNl (stop : List Char → Bool) (s : List Char) : Bool :=
  stop s ||
    match s with
    | c :: t => !(c == '\n' || c == '\r') && scanNoNl stop t
    | [] => false

/-- A single or double quote, the character class used for the package name in
the import pattern. -/
def isQuoteCh (c : Char) : Bool := c == '\x27' || c == '"'

/-- Quote, package name, quote: the tail of the import pattern. -/
def matchQuotedPkg (k s : List Char) : Bool :=
  match s with
  | q :: t =>
    isQuoteCh q && k.isPrefixOf t &&
      (match t.drop k.length with
       | q2 :: _ => isQuoteCh q2
       | [] => false)
  | [] => false

/-- The keyword from, whitespace, then the quoted package name. -/
def matchFromKw (k s : List Char) : Bool :=
  (cs "from").isPrefixOf s && wsPlusThen (matchQuotedPkg k) (s.drop 4)

/-- Match, at the start of `s`, the import pattern of update.ts lines 119 to
122: the keyword import, whitespace, a lazy gap, the plugin name, a lazy gap,
from, whitespace, and the quoted package name. -/
def matchImportAt (p k s : List Char) : Bool :=
  (cs "import").isPrefixOf s &&
    wsPlusThen
      (scanNoNl fun r => p.isPrefixOf r && scanNoNl (matchFromKw k) (r.drop p.length))
      (s.drop 6)

/-- The import presence test of `updatePayloadConfig`: does the import pattern
match anywhere in the content. -/
def importTest (p k : List Char) : List Char → Bool
  | [] => false
  | s@(_ :: t) => matchImportAt p k s || importTest p k t

/-- Split at the first closing bracket: the lazy body of the plugins pattern. -/
def splitAtFirstRB : List Char → Option (List Char × List Char)
  | [] => none
  | c :: t =>
    if c == ']' then some ([], t)
    else (splitAtFirstRB t).map fun pr => (c :: pr.1, pr.2)

/-- Match, at the start of `s`, the plugins list pattern of update.ts line 129:
the word plugins, whitespace, a colon, whitespace, an opening bracket, then the
lazy body up to the first closing bracket.  Returns the body and the text after
the closing bracket. -/
def matchPluginsAt (s : List Char) : Option (List Char × List Char) :=
  if (cs "plugins").isPrefixOf s then
    match (s.drop 7).dropWhile isWsCh with
    | ':' :: s2 =>
      match s2.dropWhile isWsCh with
      | '[' :: s3 => splitAtFirstRB s3
      | _ => none
    | _ => none
  else none

/-- First match of the plugins list pattern, as a split into the text before
the match, the list body, and the text after the match. -/
def pluginsFind : List Char → Option (List Char × List Char × List Char)
  | [] => none
  | s@(c :: t) =>
    match matchPluginsAt s with
    | some pr => some ([], pr.1, pr.2)
    | none => (pluginsFind t).map fun bia => (c :: bia.1, bia.2.1, bia.2.2)

/-- Whitespace then a closing parenthesis: shared tail of the plugin
invocation pattern and of the builder call pattern. -/
def headIsRParenAfterWs (s : List Char) : Bool :=
  match s.dropWhile isWsCh with
  | ')' :: _ => true
  | _ => false

/-- Scan for a closing brace followed by whitespace and a closing parenthesis:
the lazy tail of the plugin invocation pattern. -/
def closeBraceParenScan : List Char → Bool
  | [] => false
  | c :: t => (c == '\x7d' && headIsRParenAfterWs t) || closeBraceParenScan t

/-- After the plugin name: whitespace, an opening parenthesis, whitespace, an
opening brace, then the lazy tail. -/
def afterNameParenBrace (s : List Char) : Bool :=
  match s.dropWhile isWsCh with
  | '(' :: t =>
    match t.dropWhile isWsCh with
    | '\x7b' :: u => closeBraceParenScan u
    | _ => false
  | _ => false

/-- The plugin presence test of update.ts lines 137 to 141: an invocation of
the plugin name, or of the literal alias shadcnPlugin, with a braced argument,
anywhere in the list body. -/
def pluginTest (p : List Char) : List Char → Bool
  | [] => false
  | s@(_ :: t) =>
    (p.isPrefixOf s && afterNameParenBrace (s.drop p.length)) ||
      ((cs "shadcnPlugin").isPrefixOf s && afterNameParenBrace (s.drop 12)) ||
      pluginTest p t

/-- Lazy body of the builder call pattern: the text up to the first closing
brace that is followed by whitespace and a closing parenthesis. -/
def splitBraceWsParen : List Char → Option (List Char)
  | [] => none
  | c :: t =>
    if c == '\x7d' && headIsRParenAfterWs t then some []
    else (splitBraceWsParen t).map fun b => c :: b

/-- Match, at the start of `s`, the builder call pattern of update.ts lines
161 to 163: the word buildConfig, whitespace, an opening parenthesis,
whitespace, an opening brace, then the lazy body.  Returns the body. -/
def matchBuildAt (s : List Char) : Option (List Char) :=
  if (cs "buildConfig").isPrefixOf s then
    match (s.drop 11).dropWhile isWsCh with
    | '(' :: t =>
      match t.dropWhile isWsCh with
      | '\x7b' :: u => splitBraceWsParen u
      | _ => none
    | _ => none
  else none

/-- First match of the builder call pattern anywhere in the content. -/
def buildFind : List Char → Option (List Char)
  | [] => none
  | s@(_ :: t) =>
    match matchBuildAt s with
    | some b => some b
    | none => buildFind t

/-- Model of `String.prototype.replace` with a plain string pattern: splice
the replacement over the first occurrence of the pattern.  An empty pattern
matches at position zero, as in JavaScript. -/
def replaceFirstSub (pat rep : List Char) : List Char → List Char
  | [] => if pat.isEmpty then rep else []
  | s@(c :: t) =>
    if pat.isPrefixOf s then rep ++ s.drop pat.length
    else c :: replaceFirstSub pat rep t

/-- A plugin registration: the package to import from, the identifier to
import, and the configuration snippet inserted into the plugins list. -/
structure PluginRegistration where
  packageName : List Char
  pluginName : List Char
  pluginConfig : List Char

/-- The segment of a package name after the last slash, the model of
`split("/").pop()`. -/
def lastSlashSegment (s : List Char) : List Char :=
  (s.reverse.takeWhile (fun c => !(c == '/'))).reverse

/-- The derived import identifier of update.ts lines 184 to 186: the last
segment of the package name with every hyphen removed. -/
def getPluginImportName (packageName : List Char) : List Char :=
  (lastSlashSegment packageName).filter (fun c => !(c == '-'))

/-- A registration whose import identifier is derived from the package name,
as the base installer derives it. -/
def mkRegistration (packageName pluginConfig : List Char) : PluginRegistration :=
  ⟨packageName, getPluginImportName packageName, pluginConfig⟩

/-- The import line prepended by update.ts line 125.  It is always the ESM
form, with braces and single quotes. -/
def mkImportLine (r : PluginRegistration) : List Char :=
  cs "import \x7b " ++ r.pluginName ++ cs " \x7d from \x27" ++ r.packageName ++ cs "\x27;\n"

/-- Step one of the patcher (update.ts lines 118 to 126): prepend the import
line when the import pattern does not match anywhere. -/
def addImportStep (r : PluginRegistration) (content : List Char) : List Char :=
  if importTest r.pluginName r.packageName content then content
  else mkImportLine r ++ content

/-- The cleaned list body of update.ts lines 144 to 148: collapse doubled
commas once, drop a trailing comma, trim. -/
def cleanedPluginsOf (inner : List Char) : List Char :=
  trimStr (removeTrailingComma (collapseCommas inner))

/-- The replacement plugins section of update.ts lines 150 to 151: the cleaned
body, a separator only when that body is nonempty, and the snippet. -/
def mkNewSection (r : PluginRegistration) (inner : List Char) : List Char :=
  let cleaned := cleanedPluginsOf inner
  let sep : List Char := if cleaned.isEmpty then [] else [',']
  cs "plugins: [" ++ cleaned ++ sep ++ r.pluginConfig ++ cs "]"

/-- Step two of the patcher (update.ts lines 128 to 170): patch the first
plugins list if one is found and the plugin is not already present; otherwise
insert a plugins entry into the body of the first builder call; otherwise
leave the content as it is. -/
def pluginsStep (r : PluginRegistration) (content : List Char) : List Char :=
  match pluginsFind content with
  | some (before, inner, after) =>
    if pluginTest r.pluginName inner then content
    else before ++ mkNewSection r inner ++ after
  | none =>
    match buildFind content with
    | some body =>
      replaceFirstSub body (body ++ cs "\n  plugins: [" ++ r.pluginConfig ++ cs "],") content
    | none => content

/-- The pure text transform `BasePluginInstaller.updatePayloadConfig`
(update.ts lines 114 to 179): import step, plugins step, cleanup pass. -/
def updatePayloadConfig (r : PluginRegistration) (content : List Char) : List Char :=
  cleanupContent (pluginsStep r (addImportStep r content))

/-- The configuration snippet of the shadcn installer with the default style
sheet path (update.ts lines 252 to 265). -/
def shadcnPluginConfig : List Char :=
  cs "\n    shadcnPlugin(\x7b\n      enableAll: true,\n      customScssPath: \"src/app/(payload)/custom.scss\",\n      injectStyles: false,\n      customCSS: \x60\n        /* Add any additional custom CSS here */\n        :root \x7b\n          --custom-color: #ff0000;\n        \x7d\n      \x60,\n    \x7d)"

/-- The registration of the shadcn installer: its package name with the
derived import identifier and its configuration snippet. -/
def shadcnRegistration : PluginRegistration :=
  mkRegistration (cs "@payloadcms/plugin-shadcn") shadcnPluginConfig


/-! ## File system model and the file level update (update.ts lines 196 to 231,
plugins.ts lines 103 to 115) -/

/-- A file system, as an association list from path to file content; the most
recent write for a path shadows older entries. -/
abbrev FileSys := List (String × List Char)

/-- The content at a path, if the path exists. -/
def fsLookup (fs : FileSys) (p : String) : Option (List Char) :=
  (fs.find? fun e => e.1 == p).map fun e => e.2

/-- Write content at a path. -/
def fsWrite (fs : FileSys) (p : String) (c : List Char) : FileSys := (p, c) :: fs

/-- Model of `backupFile` (plugins.ts lines 103 to 115): when the copy
succeeds and the path exists, the current bytes of the path are copied to the
path extended with the fixed suffix .bak and that backup path is returned; a
copy failure is caught, logged and swallowed, returning null. -/
def backupFileOp (fs : FileSys) (p : String) (copyFails : Bool) :
    FileSys × Option String :=
  if copyFails then (fs, none)
  else
    match fsLookup fs p with
    | some bytes => (fsWrite fs (p ++ ".bak") bytes, some (p ++ ".bak"))
    | none => (fs, none)

/-- The candidate configuration paths of update.ts lines 197 to 202. -/
def payloadConfigCandidates : List String :=
  ["src/payload.config.ts", "payload.config.ts",
   "src/payload.config.js", "payload.config.js"]

/-- Model of `findConfigFile` (plugins.ts lines 84 to 96): the first candidate
path that exists. -/
def findConfigFile (fs : FileSys) : Option String :=
  payloadConfigCandidates.find? fun p => (fsLookup fs p).isSome

/-- Fault flags for the fallible primitives of one run of the file update. -/
structure IOFault where
  backupCopyFails : Bool
  readFails : Bool
  writeFails : Bool

/-- Outcome of the file level update: success, the missing configuration
error, or a re-raised input output failure. -/
inductive UpdateFileResult
  | ok
  | noConfigError
  | ioError (stage : String)
deriving DecidableEq

/-- The catch clause of `updatePayloadConfigFile` (update.ts lines 223 to
230): when a backup exists at the path extended with .bak, copy it back over
the working path. -/
def restoreIfBak (fs : FileSys) (p : String) : FileSys :=
  match fsLookup fs (p ++ ".bak") with
  | some b => fsWrite fs p b
  | none => fs

/-- Model of `BasePluginInstaller.updatePayloadConfigFile` (update.ts lines
196 to 231): locate the configuration file, back it up (a backup failure is
swallowed inside `backupFile`), read the content, transform it with
`updatePayloadConfig`, write it back; on a read or write failure restore from
the backup when one exists and re-raise.  The restoring copy itself is
modelled as infallible. -/
def updatePayloadConfigFile (r : PluginRegistration) (fault : IOFault)
    (fs : FileSys) : UpdateFileResult × FileSys :=
  match findConfigFile fs with
  | none => (.noConfigError, fs)
  | some p =>
    let fs1 := (backupFileOp fs p fault.backupCopyFails).1
    if fault.readFails then (.ioError "read", restoreIfBak fs1 p)
    else
      match fsLookup fs1 p with
      | none => (.ioError "read", restoreIfBak fs1 p)
      | some content =>
        if fault.writeFails then (.ioError "write", restoreIfBak fs1 p)
        else (.ok, fsWrite fs1 p (updatePayloadConfig r content))

/-! ## Template registry and configuration validation (packageManager.ts
lines 103 to 283) -/

/-- The two module declaration styles a validator can report. -/
inductive ModuleFormat
  | esm
  | commonjs
deriving DecidableEq

/-- The result shape of every template validator. -/
structure ConfigValidation where
  isValid : Bool
  format : Option ModuleFormat
  hasRequiredContent : Bool

/-- A registered template: display name, canonical content, validator. -/
structure ConfigTemplate where
  name : String
  content : List Char
  validate : List Char → ConfigValidation

/-- The module declaration style detection the validators share: the presence
of the default export marker classifies the document as ESM, otherwise the
presence of the exports object marker classifies it as CommonJS, ESM taking
precedence. -/
def detectModuleFormat (content : List Char) : Option ModuleFormat :=
  if containsSub (cs "export default") content then some .esm
  else if containsSub (cs "module.exports") content then some .commonjs
  else none

/-- Canonical content of the postcss template (packageManager.ts lines 125 to
129). -/
def postcssTemplateContent : List Char :=
  cs "export default \x7b\n  plugins: \x7b\n    \"@tailwindcss/postcss\": \x7b\x7d,\n  \x7d,\n\x7d;"

/-- The validator of the postcss template (packageManager.ts lines 130 to
140). -/
def postcssValidate (content : List Char) : ConfigValidation :=
  let hasRequiredContent := containsSub (cs "@tailwindcss/postcss") content
  ⟨(detectModuleFormat content).isSome && hasRequiredContent,
    detectModuleFormat content, hasRequiredContent⟩

/-- The postcss template. -/
def postcssTemplate : ConfigTemplate :=
  ⟨"PostCSS", postcssTemplateContent, postcssValidate⟩

/-- Canonical content of the tailwind template (packageManager.ts lines 144
to 156). -/
def tailwindTemplateContent : List Char :=
  cs "import \x7b type Config \x7d from \"tailwindcss\";\nimport \x7b getShadcnContent \x7d from \"@payloadcmsdirectory/shadcn-ui\";\n\nexport default \x7b\n  content: [\n    ...getShadcnContent(),\n    \"./src/**/*.\x7bjs,ts,jsx,tsx\x7d\",\n  ],\n  theme: \x7b\n    extend: \x7b\x7d,\n  \x7d,\n  plugins: [],\n\x7d satisfies Config;"

/-- The validator of the tailwind template (packageManager.ts lines 157 to
167). -/
def tailwindValidate (content : List Char) : ConfigValidation :=
  let hasRequiredContent := containsSub (cs "getShadcnContent()") content
  ⟨(detectModuleFormat content).isSome && hasRequiredContent,
    detectModuleFormat content, hasRequiredContent⟩

/-- The tailwind template. -/
def tailwindTemplate : ConfigTemplate :=
  ⟨"Tailwind", tailwindTemplateContent, tailwindValidate⟩

/-- Canonical content of the css template (packageManager.ts lines 171 to
175). -/
def cssTemplateContent : List Char :=
  cs "@import \"@payloadcmsdirectory/shadcn-ui/globals.css\";\n\n@tailwind base;\n@tailwind components;\n@tailwind utilities;"

/-- The validator of the css template (packageManager.ts lines 176 to 186):
style sheets have no module format, and validity is the marker check alone. -/
def cssValidate (content : List Char) : ConfigValidation :=
  let hasRequiredContent :=
    containsSub (cs "@payloadcmsdirectory/shadcn-ui/globals.css") content
  ⟨hasRequiredContent, none, hasRequiredContent⟩

/-- The css template. -/
def cssTemplate : ConfigTemplate := ⟨"CSS", cssTemplateContent, cssValidate⟩

/-- A registration inside the handler: a path with its template. -/
structure ConfigFile where
  path : String
  template : ConfigTemplate

/-- One row of the report of `validateConfigs`. -/
structure ValidationReport where
  name : String
  path : String
  needsUpdate : Bool
  fileExists : Bool
  validation : Option ConfigValidation

/-- Model of `ConfigHandler.validateConfigs` (packageManager.ts lines 202 to
230): a missing file reports needsUpdate with no validation; an existing file
reports needsUpdate exactly when its validation is not isValid. -/
def validateConfigs (configs : List ConfigFile) (fs : FileSys) :
    List ValidationReport :=
  configs.map fun cfg =>
    match fsLookup fs cfg.path with
    | none => ⟨cfg.template.name, cfg.path, true, false, none⟩
    | some content =>
      let v := cfg.template.validate content
      ⟨cfg.template.name, cfg.path, !v.isValid, true, some v⟩

/-- Model of `ConfigHandler.validateSingleConfig` (packageManager.ts lines 262
to 267). -/
def validateSingleConfig (fs : FileSys) (cfg : ConfigFile) :
    Option ConfigValidation :=
  (fsLookup fs cfg.path).map cfg.template.validate

/-- Model of `ConfigHandler.updateConfigs` (packageManager.ts lines 247 to
260): in registration order, write the template content over every missing or
invalid file, returning the final file system and the written paths in
order. -/
def updateConfigs : List ConfigFile → FileSys → FileSys × List String
  | [], fs => (fs, [])
  | cfg :: rest, fs =>
    let needsWrite :=
      match validateSingleConfig fs cfg with
      | none => true
      | some v => !v.isValid
    if needsWrite then
      let out := updateConfigs rest (fsWrite fs cfg.path cfg.template.content)
      (out.1, cfg.path :: out.2)
    else updateConfigs rest fs

/-- Model of `createShadcnConfigHandler` (packageManager.ts lines 271 to
283): the standard handler holding the three built in templates. -/
def createShadcnConfigHandler (postcssPath tailwindPath cssPath : String) :
    List ConfigFile :=
  [⟨postcssPath, postcssTemplate⟩, ⟨tailwindPath, tailwindTemplate⟩,
   ⟨cssPath, cssTemplate⟩]

/-! ## Identifier case conversion and the generate collection command
(generateCollection.ts) -/

/-- ASCII lowercase letter. -/
def isLowerAZ (c : Char) : Bool := 'a' ≤ c && c ≤ 'z'

/-- ASCII uppercase letter. -/
def isUpperAZ (c : Char) : Bool := 'A' ≤ c && c ≤ 'Z'

/-- ASCII digit. -/
def isDigitCh (c : Char) : Bool := '0' ≤ c && c ≤ '9'

/-- ASCII word character of the word class of JavaScript regular
expressions. -/
def isWordCh (c : Char) : Bool :=
  isUpperAZ c || isLowerAZ c || isDigitCh c || c == '_'

/-- Model of toUpperCase on the ASCII range: shift a lowercase letter into the
uppercase range, leave everything else unchanged. -/
def jsToUpper (c : Char) : Char :=
  if isLowerAZ c then Char.ofNat (c.toNat - 32) else c

/-- Model of toLowerCase on the ASCII range. -/
def jsToLower (c : Char) : Char :=
  if isUpperAZ c then Char.ofNat (c.toNat + 32) else c

/-- Shared worker for the first replace pass of `camelCase` and
`toPascalCase` (generateCollection.ts lines 1063 and 1075).  Away from the
start of the string a character is matched by the pattern, and uppercased by
the replacer, exactly when it is an uppercase letter, or a word character
standing at a word boundary, that is, preceded by a non word character. -/
def caseConvTail (prev : Char) : List Char → List Char
  | [] => []
  | c :: t =>
    (if isUpperAZ c || (isWordCh c && !isWordCh prev) then jsToUpper c else c) ::
      caseConvTail c t

/-- First replace pass of `toPascalCase`: a word character at the very start
is matched (offset zero) and uppercased, then the shared worker runs. -/
def pass1Pascal : List Char → List Char
  | [] => []
  | c :: t => (if isWordCh c then jsToUpper c else c) :: caseConvTail c t

/-- First replace pass of `camelCase`: the replacer lowercases the match at
offset zero (the index argument of the replacer is the match offset) and
uppercases every later match. -/
def pass1Camel : List Char → List Char
  | [] => []
  | c :: t => (if isWordCh c then jsToLower c else c) :: caseConvTail c t

/-- The two final passes shared by both converters: remove all whitespace,
then remove all hyphens and underscores. -/
def stripSeps (s : List Char) : List Char :=
  (s.filter fun c => !isWsCh c).filter fun c => !(c == '-' || c == '_')

/-- Model of `camelCase` (generateCollection.ts lines 1061 to 1068). -/
def camelCase (s : List Char) : List Char := stripSeps (pass1Camel s)

/-- Model of `toPascalCase` (generateCollection.ts lines 1073 to 1078). -/
def toPascalCase (s : List Char) : List Char := stripSeps (pass1Pascal s)

/-- Decides the anchored pattern: an uppercase letter followed by letters and
digits only.  This is the validation pattern of generateCollection.ts line 224
and the pattern named by the claims. -/
def pascalIdentTest : List Char → Bool
  | [] => false
  | c :: t => isUpperAZ c && t.all fun d => isUpperAZ d || isLowerAZ d || isDigitCh d

/-- Stated from the claim: a name with its first character lowercased, the
operation the claim compares `camelCase` against. -/
def specLowerFirst : List Char → List Char
  | [] => []
  | c :: t => jsToLower c :: t

/-- A separator of the inline conversion of the command: hyphen, underscore
or whitespace. -/
def isSepCh (c : Char) : Bool := c == '-' || c == '_' || isWsCh c

/-- Worker for the separator replace of generateCollection.ts lines 219 to
222 and 241 to 243: outside a run characters are copied; a separator starts a
run; the run ends at the first non separator character, which is uppercased
(the optional captured character of the pattern), or at the end of the text. -/
def sepReplaceM : Bool → List Char → List Char
  | _, [] => []
  | false, c :: t =>
    if isSepCh c then sepReplaceM true t else c :: sepReplaceM false t
  | true, c :: t =>
    if isSepCh c then sepReplaceM true t else jsToUpper c :: sepReplaceM false t

/-- The separator replace pass of the inline conversion. -/
def sepReplace (s : List Char) : List Char := sepReplaceM false s

/-- The final pass of the inline conversion: uppercase the first character
when there is one and it is not a line break (the dot of the pattern does not
match a line break). -/
def upperFirstJs : List Char → List Char
  | [] => []
  | c :: t => if c == '\n' || c == '\r' then c :: t else jsToUpper c :: t

/-- The inline pascal conversion of generateCollection.ts lines 241 to 243,
applied by the command to the resolved name without trimming. -/
def inlinePascal (s : List Char) : List Char := upperFirstJs (sepReplace s)

/-- The pascal form computed inside the prompt validator (lines 219 to 222),
which first trims its input. -/
def promptPascal (input : List Char) : List Char := inlinePascal (trimStr input)

/-- Outcome of the inquirer validate closure. -/
inductive NameValidation
  | ok
  | errRequired
  | errPascal
deriving DecidableEq

/-- Model of the validate closure of generateCollection.ts lines 216 to 228:
an all whitespace input is rejected as required; an input whose pascal form
fails the anchored pattern is rejected as invalid; otherwise accepted. -/
def promptNameValidate (input : List Char) : NameValidation :=
  if (trimStr input).isEmpty then .errRequired
  else if pascalIdentTest (promptPascal input) then .ok
  else .errPascal

/-- Events observable in a run of the generate collection command. -/
inductive CmdEffect
  | promptName
  | rejectName
  | ensureDir (path : String)
  | writeFile (path : String)
  | logInfo (msg : String)
deriving DecidableEq

/-- The interactive name prompt: inquirer re-asks until the validate closure
accepts, each rejected answer being observable as a rejection event; the
accepted raw answer is then trimmed (line 231).  When the supplied answers run
out the command is blocked at the prompt and nothing further happens. -/
def promptForName : List (List Char) → List CmdEffect × Option (List Char)
  | [] => ([.promptName], none)
  | ans :: rest =>
    match promptNameValidate ans with
    | .ok => ([.promptName], some (trimStr ans))
    | _ =>
      let out := promptForName rest
      (.promptName :: .rejectName :: out.1, out.2)

/-- Model of the template path of `generateFromTemplate` (generateCollection.ts
lines 278 to 401) at the depth the claims need: ensure the collections
directory, ensure the collection directory named by the camel case of the
name, write the generated index file, then print the configuration
instructions.  The configuration lookup and the template choice prompt are
collaborators outside this core. -/
def generateFromTemplateRun (collectionsDir : String)
    (collectionName : List Char) : List CmdEffect :=
  let collectionDir := collectionsDir ++ "/" ++ String.mk (camelCase collectionName)
  [.ensureDir collectionsDir, .ensureDir collectionDir,
   .writeFile (collectionDir ++ "/index.ts"),
   .logInfo "update payload config instructions"]

/-- Model of `generateCollectionCommand` (generateCollection.ts lines 165 to
273) on the template path of a configured project: a missing name argument is
resolved through the validating interactive prompt; a name supplied as an
argument is used as it is.  The resolved name is converted by the inline
pascal conversion (lines 241 to 243) and handed to the template generation. -/
def generateCollectionCommand (argName : Option (List Char))
    (nameResponses : List (List Char)) (collectionsDir : String) :
    List CmdEffect :=
  let resolved : List CmdEffect × Option (List Char) :=
    match argName with
    | some name => ([], some name)
    | none => promptForName nameResponses
  match resolved.2 with
  | none => resolved.1
  | some collectionName =>
    if collectionName.isEmpty then resolved.1 ++ [.logInfo "Collection name is required"]
    else resolved.1 ++ generateFromTemplateRun collectionsDir (inlinePascal collectionName)

/-! ## Cloning a collection directory (generateCollection.ts lines 647 to
681) -/

/-- A directory tree, flattened to the list of its files: each file is its
relative path, as segments, with its content.  A nested file has more than one
segment. -/
abbrev DirTree := List (List String × List Char)

/-- Does a file name end in .ts or .js (generateCollection.ts line 664). -/
def endsWithCode (name : String) : Bool :=
  (cs ".ts").isSuffixOf name.data || (cs ".js").isSuffixOf name.data

/-- Fuel driven worker for the global literal replace; fuel at least the
length of the text makes it total. -/
def replaceAllGo (pat rep : List Char) : Nat → List Char → List Char
  | _, [] => []
  | 0, s => s
  | fuel + 1, s@(c :: t) =>
    if !pat.isEmpty && pat.isPrefixOf s then
      rep ++ replaceAllGo pat rep fuel (s.drop pat.length)
    else c :: replaceAllGo pat rep fuel t

/-- Model of `replace(new RegExp(name, "g"), replacement)` for a pattern free
of metacharacters: the global, non overlapping, left to right literal
replacement.  An empty pattern is left unreplaced; the source never derives
one from a nonempty directory name. -/
def replaceAllSub (pat rep s : List Char) : List Char :=
  replaceAllGo pat rep s.length s

/-- Model of `cloneCollection` (generateCollection.ts lines 647 to 681): the
target directory receives a copy of the whole source tree; then, for every
name listed by a top level directory read that ends in .ts or .js, the file of
that name is rewritten, every occurrence of the pascal case of the source
directory basename being replaced by the new collection name.  Nested entries
are never listed by the top level read and stay as copied. -/
def cloneCollection (sourceBase : String) (src : DirTree)
    (newCollectionName : List Char) : DirTree :=
  let sourcePascalCase := toPascalCase sourceBase.data
  src.map fun f =>
    match f.1 with
    | [name] =>
      if endsWithCode name then
        (f.1, replaceAllSub sourcePascalCase newCollectionName f.2)
      else f
    | _ => f

/-! ## Concrete instances used by witnesses and counterexamples -/

/-- A small registration used by concrete instances: package pkg with the
derived import identifier and the snippet x(). -/
def tinyReg : PluginRegistration := mkRegistration (cs "pkg") (cs "x()")

/-- A one file system whose configuration text has no plugins list and no
builder call. -/
def fsNoAnchor : FileSys := [("src/payload.config.ts", cs "x = 1;")]

/-- Already patched content that every check of the patcher recognizes. -/
def patchedFixpointContent : List Char :=
  mkImportLine tinyReg ++ cs "plugins: [pkg(\x7b\x7d)]"

/-- CommonJS content with an empty plugins list inside a builder call. -/
def commonJsPluginsContent : List Char :=
  cs "module.exports = buildConfig(\x7b plugins: [] \x7d);"

/-- CommonJS content with no patch anchor at all. -/
def commonJsNoAnchorContent : List Char := cs "module.exports = 1;"

/-- A handler state registering one path under two distinct templates. -/
def dupPathHandler : List ConfigFile :=
  [⟨"postcss.config.js", postcssTemplate⟩, ⟨"postcss.config.js", tailwindTemplate⟩]

/-- A source tree holding a top level code file and a nested code file, both
containing the pascal case of the source directory name. -/
def cloneSrcTree : DirTree :=
  [(["index.ts"], cs "Posts"), (["sub", "nested.ts"], cs "Posts")]

/-- Content with the import of the small registration already present and a
two entry plugins list inside a builder call. -/
def twoEntryContent : List Char :=
  mkImportLine tinyReg ++ cs "export default buildConfig(\x7b plugins: [a, b] \x7d)"

/-! ## General lemmas about the file system model -/

theorem fsLookup_write_self (fs : FileSys) (p : String) (c : List Char) :
    fsLookup (fsWrite fs p c) p = some c := by
  simp [fsLookup, fsWrite, List.find?]

theorem fsLookup_write_ne (fs : FileSys) (p q : String) (c : List Char)
    (h : ¬(q = p)) : fsLookup (fsWrite fs q c) p = fsLookup fs p := by
  have hb : (q == p) = false := by simp [h]
  simp [fsLookup, fsWrite, List.find?, hb]

theorem bakPath_ne (p : String) : ¬(p ++ ".bak" = p) := by
  intro h
  have h2 := congrArg String.length h
  rw [String.length_append] at h2
  have h3 : (".bak" : String).length = 4 := by decide
  omega

/-! ## Transparency lemmas for the cleanup pass: a prefix free of the
characters that can start a match is carried through unchanged -/

theorem collapseM_append_of_comma_free (p s : List Char)
    (h : ∀ ch ∈ p, ¬(ch = ',')) :
    collapseM none (p ++ s) = p ++ collapseM none s := by
  induction p with
  | nil => simp
  | cons c q ih =>
    have hc : ¬(c = ',') := h c (by simp)
    have hq : ∀ ch ∈ q, ¬(ch = ',') := fun ch hm => h ch (by simp [hm])
    simp [collapseM, hc, ih hq]

theorem remCommaAfterLB_append_of_lb_free (p s : List Char)
    (h : ∀ ch ∈ p, ¬(ch = '[')) :
    remCommaAfterLB (p ++ s) = p ++ remCommaAfterLB s := by
  induction p with
  | nil => simp
  | cons c q ih =>
    have hc : ¬(c = '[') := h c (by simp)
    have hq : ∀ ch ∈ q, ¬(ch = '[') := fun ch hm => h ch (by simp [hm])
    simp [remCommaAfterLB, hc, ih hq]

theorem remCommaBeforeRB_append_of_comma_free (p s : List Char)
    (h : ∀ ch ∈ p, ¬(ch = ',')) :
    remCommaBeforeRB (p ++ s) = p ++ remCommaBeforeRB s := by
  induction p with
  | nil => simp
  | cons c q ih =>
    have hc : ¬(c = ',') := h c (by simp)
    have hq : ∀ ch ∈ q, ¬(ch = ',') := fun ch hm => h ch (by simp [hm])
    simp [remCommaBeforeRB, hc, ih hq]

theorem cleanupContent_append_of_clean_prefix (p s : List Char)
    (h : ∀ ch ∈ p, ¬(ch = ',') ∧ ¬(ch = '[')) :
    cleanupContent (p ++ s) = p ++ cleanupContent s := by
  unfold cleanupContent collapseCommas
  rw [collapseM_append_of_comma_free p s (fun ch hm => (h ch hm).1),
    remCommaAfterLB_append_of_lb_free p _ (fun ch hm => (h ch hm).2),
    remCommaBeforeRB_append_of_comma_free p _ (fun ch hm => (h ch hm).1)]

/-! ## Claim C1 -/

/-- Claim C1, counterexample: the patcher is not idempotent for every content
and registration.  On the content a,,,b the comma collapsing pass removes one
pair per run, so the second application changes the text again. -/
theorem C1_patch_not_idempotent_cex :
    updatePayloadConfig tinyReg (updatePayloadConfig tinyReg (cs "a,,,b")) ≠
      updatePayloadConfig tinyReg (cs "a,,,b") := by decide

/-- Claim C1, amended: the patcher is a fixpoint on every content it
recognizes as already patched and already clean: when the import pattern
matches, the first located plugins list passes the plugin presence test, and
the cleanup pass leaves the content unchanged, the patch returns the content
byte for byte, so such content gains no duplicate import line and no
duplicate plugins entry. -/
theorem C1_patch_fixpoint_on_recognized (r : PluginRegistration)
    (c before inner after : List Char)
    (h1 : importTest r.pluginName r.packageName c = true)
    (h2 : pluginsFind c = some (before, inner, after))
    (h3 : pluginTest r.pluginName inner = true)
    (h4 : cleanupContent c = c) :
    updatePayloadConfig r c = c := by
  unfold updatePayloadConfig addImportStep pluginsStep
  simp [h1, h2, h3, h4]

/-- Claim C1 witness: the amended fixpoint theorem applied to concrete
recognized patched content. -/
theorem C1_patch_fixpoint_witness :
    importTest tinyReg.pluginName tinyReg.packageName patchedFixpointContent = true ∧
    pluginsFind patchedFixpointContent =
      some (mkImportLine tinyReg, cs "pkg(\x7b\x7d)", []) ∧
    pluginTest tinyReg.pluginName (cs "pkg(\x7b\x7d)") = true ∧
    cleanupContent patchedFixpointContent = patchedFixpointContent ∧
    updatePayloadConfig tinyReg patchedFixpointContent = patchedFixpointContent :=
  ⟨by decide, by decide, by decide, by decide,
    C1_patch_fixpoint_on_recognized tinyReg patchedFixpointContent
      (mkImportLine tinyReg) (cs "pkg(\x7b\x7d)") [] (by decide) (by decide)
      (by decide) (by decide)⟩

/-! ## Claim C2 -/

/-- Claim C2, counterexample: on content in which neither a plugins list nor a
builder call can be located, no error is signalled and the file is written:
the run reports success and the stored bytes change. -/
theorem C2_no_anchor_writes_cex :
    pluginsFind (addImportStep tinyReg (cs "x = 1;")) = none ∧
    buildFind (addImportStep tinyReg (cs "x = 1;")) = none ∧
    (updatePayloadConfigFile tinyReg ⟨false, false, false⟩ fsNoAnchor).1 = .ok ∧
    fsLookup (updatePayloadConfigFile tinyReg ⟨false, false, false⟩ fsNoAnchor).2
        "src/payload.config.ts" ≠ some (cs "x = 1;") := by decide

/-- Claim C2, amended: when neither anchor is located the patcher signals
nothing; it returns the content with only the import handling and the cleanup
pass applied, no plugins entry is added, and the file update writes that text
and reports success. -/
theorem C2_no_anchor_amended (r : PluginRegistration) (c : List Char)
    (h1 : pluginsFind (addImportStep r c) = none)
    (h2 : buildFind (addImportStep r c) = none) :
    updatePayloadConfig r c = cleanupContent (addImportStep r c) ∧
    ∀ fs p, findConfigFile fs = some p → fsLookup fs p = some c →
      (updatePayloadConfigFile r ⟨false, false, false⟩ fs).1 = .ok ∧
      fsLookup (updatePayloadConfigFile r ⟨false, false, false⟩ fs).2 p =
        some (updatePayloadConfig r c) := by
  constructor
  · unfold updatePayloadConfig pluginsStep
    rw [h1, h2]
  · intro fs p hf ho
    have hbak : (backupFileOp fs p false).1 = fsWrite fs (p ++ ".bak") c := by
      simp [backupFileOp, ho]
    have hlk : fsLookup (fsWrite fs (p ++ ".bak") c) p = some c := by
      rw [fsLookup_write_ne fs p (p ++ ".bak") c (bakPath_ne p)]
      exact ho
    simp [updatePayloadConfigFile, hf, hbak, hlk, fsLookup_write_self]

/-- Claim C2 witness: the amended theorem applied to a concrete anchor free
configuration. -/
theorem C2_no_anchor_witness :
    pluginsFind (addImportStep tinyReg (cs "x = 1;")) = none ∧
    buildFind (addImportStep tinyReg (cs "x = 1;")) = none ∧
    updatePayloadConfig tinyReg (cs "x = 1;") =
      cleanupContent (addImportStep tinyReg (cs "x = 1;")) ∧
    fsLookup (updatePayloadConfigFile tinyReg ⟨false, false, false⟩ fsNoAnchor).2
        "src/payload.config.ts" = some (updatePayloadConfig tinyReg (cs "x = 1;")) := by
  have h := C2_no_anchor_amended tinyReg (cs "x = 1;") (by decide) (by decide)
  exact ⟨by decide, by decide, h.1,
    (h.2 fsNoAnchor "src/payload.config.ts" (by decide) (by decide)).2⟩

/-! ## Claim C3 -/

set_option maxRecDepth 40000 in
/-- Claim C3, counterexample: content the format detection classifies as
CommonJS still receives the ESM import line, not a require line: the patched
text begins with the ESM import and contains no require anywhere. -/
theorem C3_commonjs_gets_esm_cex :
    detectModuleFormat commonJsPluginsContent = some .commonjs ∧
    (mkImportLine shadcnRegistration).isPrefixOf
        (updatePayloadConfig shadcnRegistration commonJsPluginsContent) = true ∧
    containsSub (cs "require")
        (updatePayloadConfig shadcnRegistration commonJsPluginsContent) = false := by
  decide

/-- Claim C3, amended: the form of the prepended line never consults the
format detection: for every content lacking the import, in particular content
classified as CommonJS, the patcher prepends the fixed ESM import line, and
when no anchor is present the output is exactly that ESM line followed by the
cleaned content, never a require form. -/
theorem C3_always_esm_import (r : PluginRegistration) (c : List Char)
    (hfmt : detectModuleFormat c = some .commonjs)
    (himp : importTest r.pluginName r.packageName c = false)
    (hline : ∀ ch ∈ mkImportLine r, ¬(ch = ',') ∧ ¬(ch = '['))
    (hp : pluginsFind (mkImportLine r ++ c) = none)
    (hb : buildFind (mkImportLine r ++ c) = none) :
    updatePayloadConfig r c = mkImportLine r ++ cleanupContent c ∧
    (mkImportLine r).isPrefixOf (updatePayloadConfig r c) = true := by
  have key : updatePayloadConfig r c = mkImportLine r ++ cleanupContent c := by
    unfold updatePayloadConfig addImportStep pluginsStep
    simp only [himp, Bool.false_eq_true, if_false]
    rw [hp, hb, cleanupContent_append_of_clean_prefix (mkImportLine r) c hline]
  refine ⟨key, ?_⟩
  rw [key, List.isPrefixOf_iff_prefix]
  exact List.prefix_append _ _

/-- Claim C3 witness: the amended theorem applied to concrete CommonJS
content without anchors. -/
theorem C3_always_esm_import_witness :
    detectModuleFormat commonJsNoAnchorContent = some .commonjs ∧
    importTest tinyReg.pluginName tinyReg.packageName commonJsNoAnchorContent = false ∧
    updatePayloadConfig tinyReg commonJsNoAnchorContent =
      mkImportLine tinyReg ++ cleanupContent commonJsNoAnchorContent := by
  have h := C3_always_esm_import tinyReg commonJsNoAnchorContent (by decide)
    (by decide) (by decide) (by decide) (by decide)
  exact ⟨by decide, by decide, h.1⟩

/-! ## Claim C4 -/

/-- Claim C4, counterexample: a failure of the backup copy is swallowed inside
`backupFile`, so the file is rewritten although no backup of it exists
anywhere: the run reports success, the path with suffix .bak is absent, and
the stored bytes changed. -/
theorem C4_backup_swallowed_cex :
    (updatePayloadConfigFile tinyReg ⟨true, false, false⟩ fsNoAnchor).1 = .ok ∧
    fsLookup (updatePayloadConfigFile tinyReg ⟨true, false, false⟩ fsNoAnchor).2
        ("src/payload.config.ts" ++ ".bak") = none ∧
    fsLookup (updatePayloadConfigFile tinyReg ⟨true, false, false⟩ fsNoAnchor).2
        "src/payload.config.ts" ≠ some (cs "x = 1;") := by
  decide

/-- Claim C4, amended: provided the initial backup copy succeeds, the original
bytes sit at the path with the fixed suffix .bak before the write, they are
still there after the run whatever happens, any read or write failure is
re-raised after the backup bytes are copied back over the working path, and a
fault free run leaves the patched text at the path; the backup is never
deleted. -/
theorem C4_backup_restore_amended (r : PluginRegistration) (fault : IOFault)
    (fs : FileSys) (p : String) (orig : List Char)
    (hb : fault.backupCopyFails = false)
    (hf : findConfigFile fs = some p)
    (ho : fsLookup fs p = some orig) :
    fsLookup (updatePayloadConfigFile r fault fs).2 (p ++ ".bak") = some orig ∧
    (fault.readFails = true ∨ fault.writeFails = true →
      (∃ st, (updatePayloadConfigFile r fault fs).1 = .ioError st) ∧
        fsLookup (updatePayloadConfigFile r fault fs).2 p = some orig) ∧
    (fault.readFails = false → fault.writeFails = false →
      (updatePayloadConfigFile r fault fs).1 = .ok ∧
        fsLookup (updatePayloadConfigFile r fault fs).2 p =
          some (updatePayloadConfig r orig)) := by
  have hbak : (backupFileOp fs p fault.backupCopyFails).1 =
      fsWrite fs (p ++ ".bak") orig := by
    simp [backupFileOp, hb, ho]
  have hlkP : fsLookup (fsWrite fs (p ++ ".bak") orig) p = some orig := by
    rw [fsLookup_write_ne fs p (p ++ ".bak") orig (bakPath_ne p)]
    exact ho
  have hlkB : fsLookup (fsWrite fs (p ++ ".bak") orig) (p ++ ".bak") = some orig :=
    fsLookup_write_self fs (p ++ ".bak") orig
  have hres : restoreIfBak (fsWrite fs (p ++ ".bak") orig) p =
      fsWrite (fsWrite fs (p ++ ".bak") orig) p orig := by
    simp [restoreIfBak, hlkB]
  cases hr : fault.readFails with
  | true =>
    refine ⟨?_, ?_, ?_⟩
    · simp [updatePayloadConfigFile, hf, hbak, hr, hres]
      rw [fsLookup_write_ne _ (p ++ ".bak") p orig (fun hq => bakPath_ne p hq.symm)]
      exact hlkB
    · intro _
      refine ⟨⟨"read", by simp [updatePayloadConfigFile, hf, hbak, hr]⟩, ?_⟩
      simp [updatePayloadConfigFile, hf, hbak, hr, hres, fsLookup_write_self]
    · intro hcontra _
      exact absurd hcontra (by simp)
  | false =>
    cases hw : fault.writeFails with
    | true =>
      refine ⟨?_, ?_, ?_⟩
      · simp [updatePayloadConfigFile, hf, hbak, hr, hw, hlkP, hres]
        rw [fsLookup_write_ne _ (p ++ ".bak") p orig (fun hq => bakPath_ne p hq.symm)]
        exact hlkB
      · intro _
        refine ⟨⟨"write", by simp [updatePayloadConfigFile, hf, hbak, hr, hw, hlkP]⟩, ?_⟩
        simp [updatePayloadConfigFile, hf, hbak, hr, hw, hlkP, hres, fsLookup_write_self]
      · intro _ hcontra
        exact absurd hcontra (by simp)
    | false =>
      refine ⟨?_, ?_, ?_⟩
      · simp [updatePayloadConfigFile, hf, hbak, hr, hw, hlkP]
        rw [fsLookup_write_ne _ (p ++ ".bak") p _ (fun hq => bakPath_ne p hq.symm)]
        exact hlkB
      · intro hcontra
        rcases hcontra with hcontra | hcontra
        · exact absurd hcontra (by simp)
        · exact absurd hcontra (by simp)
      · intro _ _
        refine ⟨by simp [updatePayloadConfigFile, hf, hbak, hr, hw, hlkP], ?_⟩
        simp [updatePayloadConfigFile, hf, hbak, hr, hw, hlkP, fsLookup_write_self]

/-- Claim C4 witness: the amended theorem applied to a run whose read fails:
the backup holds the original bytes and the original bytes are restored. -/
theorem C4_backup_restore_witness :
    fsLookup (updatePayloadConfigFile tinyReg ⟨false, true, false⟩ fsNoAnchor).2
        ("src/payload.config.ts" ++ ".bak") = some (cs "x = 1;") ∧
    fsLookup (updatePayloadConfigFile tinyReg ⟨false, true, false⟩ fsNoAnchor).2
        "src/payload.config.ts" = some (cs "x = 1;") := by
  have h := C4_backup_restore_amended tinyReg ⟨false, true, false⟩ fsNoAnchor
    "src/payload.config.ts" (cs "x = 1;") (by decide) (by decide) (by decide)
  exact ⟨h.1, (h.2.1 (Or.inl rfl)).2⟩

/-! ## Claim C6 -/

/-- Claim C6, counterexample: a registered postcss file containing the
required marker but no module format marker is reported as needing an update,
not with needsUpdate false. -/
theorem C6_marker_not_sufficient_cex :
    (postcssValidate (cs "@tailwindcss/postcss")).hasRequiredContent = true ∧
    (validateConfigs [⟨"postcss.config.js", postcssTemplate⟩]
        [("postcss.config.js", cs "@tailwindcss/postcss")]).map
        (fun rep => rep.needsUpdate) = [true] := by decide

/-- Claim C6, amended: for the css template the marker alone yields
needsUpdate false; for the postcss and the tailwind template the marker
yields needsUpdate false only together with a module format marker, a default
export or an exports object. -/
theorem C6_marker_validation_amended (p : String) (content : List Char) :
    ((cssValidate content).hasRequiredContent = true →
      (validateConfigs [⟨p, cssTemplate⟩] [(p, content)]).map
        (fun rep => rep.needsUpdate) = [false]) ∧
    ((postcssValidate content).hasRequiredContent = true →
      (detectModuleFormat content).isSome = true →
      (validateConfigs [⟨p, postcssTemplate⟩] [(p, content)]).map
        (fun rep => rep.needsUpdate) = [false]) ∧
    ((tailwindValidate content).hasRequiredContent = true →
      (detectModuleFormat content).isSome = true →
      (validateConfigs [⟨p, tailwindTemplate⟩] [(p, content)]).map
        (fun rep => rep.needsUpdate) = [false]) := by
  have hlk : fsLookup [(p, content)] p = some content := by
    simp [fsLookup, List.find?]
  refine ⟨?_, ?_, ?_⟩
  · intro h
    simp [validateConfigs, hlk, cssTemplate, cssValidate] at h ⊢
    simp [h]
  · intro h h2
    simp [postcssValidate] at h
    simp [validateConfigs, hlk, postcssTemplate, postcssValidate, h, h2]
  · intro h h2
    simp [tailwindValidate] at h
    simp [validateConfigs, hlk, tailwindTemplate, tailwindValidate, h, h2]

/-- Claim C6 witness: the amended theorem applied to the canonical css and
postcss contents. -/
theorem C6_marker_validation_witness :
    (cssValidate cssTemplateContent).hasRequiredContent = true ∧
    (validateConfigs [⟨"styles.css", cssTemplate⟩]
        [("styles.css", cssTemplateContent)]).map
        (fun rep => rep.needsUpdate) = [false] ∧
    (validateConfigs [⟨"postcss.config.js", postcssTemplate⟩]
        [("postcss.config.js", postcssTemplateContent)]).map
        (fun rep => rep.needsUpdate) = [false] := by
  have h := C6_marker_validation_amended "styles.css" cssTemplateContent
  have h2 := C6_marker_validation_amended "postcss.config.js" postcssTemplateContent
  exact ⟨by decide, h.1 (by decide), h2.2.1 (by decide) (by decide)⟩

/-! ## Lemmas about repeated configuration updates -/

theorem updateConfigs_lookup_cases (cfgs : List ConfigFile) (fs : FileSys)
    (p : String) :
    fsLookup (updateConfigs cfgs fs).1 p = fsLookup fs p ∨
      ∃ cfg ∈ cfgs, cfg.path = p ∧
        fsLookup (updateConfigs cfgs fs).1 p = some cfg.template.content := by
  induction cfgs generalizing fs with
  | nil => left; rfl
  | cons c0 rest ih =>
    cases hw : (match validateSingleConfig fs c0 with
      | none => true
      | some v => !v.isValid) with
    | true =>
      have hstep : (updateConfigs (c0 :: rest) fs).1 =
          (updateConfigs rest (fsWrite fs c0.path c0.template.content)).1 := by
        simp [updateConfigs, hw]
      rw [hstep]
      rcases ih (fsWrite fs c0.path c0.template.content) with h | ⟨c2, hm, hp2, hl⟩
      · by_cases hpe : c0.path = p
        · right
          refine ⟨c0, by simp, hpe, ?_⟩
          rw [h, hpe, fsLookup_write_self]
        · left
          rw [h, fsLookup_write_ne _ _ _ _ hpe]
      · right
        exact ⟨c2, by simp [hm], hp2, hl⟩
    | false =>
      have hstep : (updateConfigs (c0 :: rest) fs).1 = (updateConfigs rest fs).1 := by
        simp [updateConfigs, hw]
      rw [hstep]
      rcases ih fs with h | ⟨c2, hm, hp2, hl⟩
      · left; exact h
      · right; exact ⟨c2, by simp [hm], hp2, hl⟩

theorem updateConfigs_validates (cfgs : List ConfigFile) (fs : FileSys)
    (h1 : ∀ cfg ∈ cfgs, (cfg.template.validate cfg.template.content).isValid = true)
    (h2 : ∀ c1 ∈ cfgs, ∀ c2 ∈ cfgs, c1.path = c2.path → c1.template = c2.template) :
    ∀ cfg ∈ cfgs, ∃ content,
      fsLookup (updateConfigs cfgs fs).1 cfg.path = some content ∧
      (cfg.template.validate content).isValid = true := by
  induction cfgs generalizing fs with
  | nil => intro cfg h; cases h
  | cons c0 rest ih =>
    intro cfg hm
    rcases List.mem_cons.mp hm with hm0 | hmr
    · subst hm0
      cases hw : (match validateSingleConfig fs cfg with
        | none => true
        | some v => !v.isValid) with
      | true =>
        have hstep : (updateConfigs (cfg :: rest) fs).1 =
            (updateConfigs rest (fsWrite fs cfg.path cfg.template.content)).1 := by
          simp [updateConfigs, hw]
        rw [hstep]
        rcases updateConfigs_lookup_cases rest
            (fsWrite fs cfg.path cfg.template.content) cfg.path with h | ⟨c2, hm2, hp2, hl⟩
        · refine ⟨cfg.template.content, ?_, h1 cfg (by simp)⟩
          rw [h, fsLookup_write_self]
        · refine ⟨c2.template.content, hl, ?_⟩
          have ht : c2.template = cfg.template :=
            h2 c2 (by simp [hm2]) cfg (by simp) hp2
          rw [ht]
          exact h1 cfg (by simp)
      | false =>
        have hstep : (updateConfigs (cfg :: rest) fs).1 = (updateConfigs rest fs).1 := by
          simp [updateConfigs, hw]
        rw [hstep]
        have hv : ∃ content, fsLookup fs cfg.path = some content ∧
            (cfg.template.validate content).isValid = true := by
          rcases hvs : validateSingleConfig fs cfg with _ | v
          · rw [hvs] at hw; simp at hw
          · rw [hvs] at hw
            simp at hw
            rcases hlk : fsLookup fs cfg.path with _ | content
            · simp [validateSingleConfig, hlk] at hvs
            · refine ⟨content, rfl, ?_⟩
              simp [validateSingleConfig, hlk] at hvs
              rw [hvs]
              exact hw
        obtain ⟨content, hl, hvv⟩ := hv
        rcases updateConfigs_lookup_cases rest fs cfg.path with h | ⟨c2, hm2, hp2, hl2⟩
        · exact ⟨content, by rw [h]; exact hl, hvv⟩
        · refine ⟨c2.template.content, hl2, ?_⟩
          have ht : c2.template = cfg.template :=
            h2 c2 (by simp [hm2]) cfg (by simp) hp2
          rw [ht]
          exact h1 cfg (by simp)
    · cases hw : (match validateSingleConfig fs c0 with
        | none => true
        | some v => !v.isValid) with
      | true =>
        have hstep : (updateConfigs (c0 :: rest) fs).1 =
            (updateConfigs rest (fsWrite fs c0.path c0.template.content)).1 := by
          simp [updateConfigs, hw]
        rw [hstep]
        exact ih (fsWrite fs c0.path c0.template.content)
          (fun c hm2 => h1 c (by simp [hm2]))
          (fun ca hma cb hmb => h2 ca (by simp [hma]) cb (by simp [hmb])) cfg hmr
      | false =>
        have hstep : (updateConfigs (c0 :: rest) fs).1 = (updateConfigs rest fs).1 := by
          simp [updateConfigs, hw]
        rw [hstep]
        exact ih fs (fun c hm2 => h1 c (by simp [hm2]))
          (fun ca hma cb hmb => h2 ca (by simp [hma]) cb (by simp [hmb])) cfg hmr

theorem updateConfigs_noop (cfgs : List ConfigFile) (fs : FileSys)
    (h : ∀ cfg ∈ cfgs, ∃ content, fsLookup fs cfg.path = some content ∧
        (cfg.template.validate content).isValid = true) :
    updateConfigs cfgs fs = (fs, []) := by
  induction cfgs with
  | nil => rfl
  | cons c0 rest ih =>
    obtain ⟨content, hl, hv⟩ := h c0 (by simp)
    have hw : (match validateSingleConfig fs c0 with
        | none => true
        | some v => !v.isValid) = false := by
      simp [validateSingleConfig, hl, hv]
    simp [updateConfigs, hw]
    exact ih (fun cfg hm => h cfg (by simp [hm]))

/-! ## Claim C10 -/

set_option maxRecDepth 40000 in
/-- Claim C10, counterexample: a handler registering one path under two
distinct built in templates is not a fixpoint: after one run the file does not
validate under its first registration, and an immediately repeated run writes
again and returns a nonempty updated list. -/
theorem C10_dup_path_not_fixpoint_cex :
    ((validateSingleConfig (updateConfigs dupPathHandler []).1
        ⟨"postcss.config.js", postcssTemplate⟩).map (fun v => v.isValid)) =
      some false ∧
    (updateConfigs dupPathHandler (updateConfigs dupPathHandler []).1).2 ≠ [] := by
  decide

/-- Claim C10, amended: every built in template content satisfies its own
validator, and for every handler state in which no path is registered under
two distinct templates, one run of updateConfigs leaves every registered file
validating as isValid, and an immediately repeated run writes no file and
returns an empty updated list. -/
theorem C10_update_configs_fixpoint (cfgs : List ConfigFile) (fs : FileSys)
    (h1 : ∀ cfg ∈ cfgs, (cfg.template.validate cfg.template.content).isValid = true)
    (h2 : ∀ c1 ∈ cfgs, ∀ c2 ∈ cfgs, c1.path = c2.path → c1.template = c2.template) :
    (∀ cfg ∈ cfgs, ∃ content,
        fsLookup (updateConfigs cfgs fs).1 cfg.path = some content ∧
        (cfg.template.validate content).isValid = true) ∧
    updateConfigs cfgs (updateConfigs cfgs fs).1 = ((updateConfigs cfgs fs).1, []) := by
  refine ⟨updateConfigs_validates cfgs fs h1 h2, ?_⟩
  exact updateConfigs_noop cfgs _ (updateConfigs_validates cfgs fs h1 h2)

/-- Claim C10 witness: the amended theorem applied to the standard shadcn
handler on an empty file system: the second run changes nothing and reports
no written path. -/
theorem C10_update_configs_fixpoint_witness :
    updateConfigs
        (createShadcnConfigHandler "postcss.config.js" "tailwind.config.ts" "app.css")
        (updateConfigs
          (createShadcnConfigHandler "postcss.config.js" "tailwind.config.ts" "app.css")
          []).1 =
      ((updateConfigs
          (createShadcnConfigHandler "postcss.config.js" "tailwind.config.ts" "app.css")
          []).1, []) := by
  have h := C10_update_configs_fixpoint
    (createShadcnConfigHandler "postcss.config.js" "tailwind.config.ts" "app.css") []
    (by
      intro cfg hm
      simp [createShadcnConfigHandler] at hm
      rcases hm with h | h | h <;> subst h <;> decide)
    (by
      intro c1 hm1 c2 hm2 hpp
      simp [createShadcnConfigHandler] at hm1 hm2
      rcases hm1 with h | h | h <;> rcases hm2 with g | g | g <;> subst h <;> subst g <;>
        first
        | rfl
        | exact absurd hpp (by decide))
  exact h.2

/-! ## Character range lemmas for the case converters -/

theorem isLowerAZ_iff (c : Char) :
    isLowerAZ c = true ↔ 97 ≤ c.toNat ∧ c.toNat ≤ 122 := by
  simp [isLowerAZ, Char.le_def, UInt32.le_def, Char.toNat, BitVec.le_def, UInt32.toNat]

theorem isUpperAZ_iff (c : Char) :
    isUpperAZ c = true ↔ 65 ≤ c.toNat ∧ c.toNat ≤ 90 := by
  simp [isUpperAZ, Char.le_def, UInt32.le_def, Char.toNat, BitVec.le_def, UInt32.toNat]

theorem isDigitCh_iff (c : Char) :
    isDigitCh c = true ↔ 48 ≤ c.toNat ∧ c.toNat ≤ 57 := by
  simp [isDigitCh, Char.le_def, UInt32.le_def, Char.toNat, BitVec.le_def, UInt32.toNat]

theorem charEq_iff (c d : Char) : c = d ↔ c.toNat = d.toNat := by
  constructor
  · intro h; rw [h]
  · intro h
    apply Char.ext
    apply UInt32.ext
    exact h

theorem toNat_ofNat_small (n : Nat) (h : n < 55296) :
    (Char.ofNat n).toNat = n := by
  have hv : Nat.isValidChar n := Or.inl h
  rw [Char.ofNat]
  simp [hv, Char.ofNatAux, Char.toNat, UInt32.toNat, BitVec.toNat_ofNatLt]

theorem sep_toNat (c : Char) (h : isSepCh c = true) :
    c.toNat = 45 ∨ c.toNat = 95 ∨ c.toNat = 32 ∨ c.toNat = 9 ∨ c.toNat = 10 ∨
      c.toNat = 13 ∨ c.toNat = 11 ∨ c.toNat = 12 := by
  have h2 : c = '-' ∨ c = '_' ∨ c = ' ' ∨ c = '\t' ∨ c = '\n' ∨ c = '\x0d' ∨
      c = '\x0b' ∨ c = '\x0c' := by
    simp [isSepCh, isWsCh] at h
    tauto
  rcases h2 with h | h | h | h | h | h | h | h <;> subst h <;> decide

theorem lower_false_of_upper (c : Char) (h : isUpperAZ c = true) :
    isLowerAZ c = false := by
  rcases (isUpperAZ_iff c).mp h with ⟨h1, h2⟩
  by_contra hc
  rw [Bool.not_eq_false] at hc
  rcases (isLowerAZ_iff c).mp hc with ⟨h3, _⟩
  omega

theorem lower_false_of_digit (c : Char) (h : isDigitCh c = true) :
    isLowerAZ c = false := by
  rcases (isDigitCh_iff c).mp h with ⟨h1, h2⟩
  by_contra hc
  rw [Bool.not_eq_false] at hc
  rcases (isLowerAZ_iff c).mp hc with ⟨h3, _⟩
  omega

theorem lower_false_of_sep (c : Char) (h : isSepCh c = true) :
    isLowerAZ c = false := by
  by_contra hc
  rw [Bool.not_eq_false] at hc
  rcases (isLowerAZ_iff c).mp hc with ⟨h1, h2⟩
  rcases sep_toNat c h with h3 | h3 | h3 | h3 | h3 | h3 | h3 | h3 <;> omega

theorem upper_false_of_lower (c : Char) (h : isLowerAZ c = true) :
    isUpperAZ c = false := by
  rcases (isLowerAZ_iff c).mp h with ⟨h1, h2⟩
  by_contra hc
  rw [Bool.not_eq_false] at hc
  rcases (isUpperAZ_iff c).mp hc with ⟨_, h3⟩
  omega

theorem jsToUpper_eq_of_not_lower (c : Char) (h : isLowerAZ c = false) :
    jsToUpper c = c := by
  simp [jsToUpper, h]

theorem jsToLower_eq_of_not_upper (c : Char) (h : isUpperAZ c = false) :
    jsToLower c = c := by
  simp [jsToLower, h]

theorem jsToUpper_toNat_of_lower (c : Char) (h : isLowerAZ c = true) :
    (jsToUpper c).toNat = c.toNat - 32 := by
  rcases (isLowerAZ_iff c).mp h with ⟨h1, h2⟩
  simp [jsToUpper, h]
  exact toNat_ofNat_small _ (by omega)

theorem upper_jsToUpper_of_lower (c : Char) (h : isLowerAZ c = true) :
    isUpperAZ (jsToUpper c) = true := by
  rcases (isLowerAZ_iff c).mp h with ⟨h1, h2⟩
  rw [isUpperAZ_iff, jsToUpper_toNat_of_lower c h]
  omega

theorem jsToLower_toNat_of_upper (c : Char) (h : isUpperAZ c = true) :
    (jsToLower c).toNat = c.toNat + 32 := by
  rcases (isUpperAZ_iff c).mp h with ⟨h1, h2⟩
  simp [jsToLower, h]
  exact toNat_ofNat_small _ (by omega)

theorem lower_jsToLower_of_upper (c : Char) (h : isUpperAZ c = true) :
    isLowerAZ (jsToLower c) = true := by
  rcases (isUpperAZ_iff c).mp h with ⟨h1, h2⟩
  rw [isLowerAZ_iff, jsToLower_toNat_of_upper c h]
  omega

theorem sep_false_of_upper (c : Char) (h : isUpperAZ c = true) :
    isSepCh c = false := by
  by_contra hc
  rw [Bool.not_eq_false] at hc
  rcases (isUpperAZ_iff c).mp h with ⟨h1, h2⟩
  rcases sep_toNat c hc with h3 | h3 | h3 | h3 | h3 | h3 | h3 | h3 <;> omega

theorem sep_false_of_lower (c : Char) (h : isLowerAZ c = true) :
    isSepCh c = false := by
  by_contra hc
  rw [Bool.not_eq_false] at hc
  rcases (isLowerAZ_iff c).mp h with ⟨h1, h2⟩
  rcases sep_toNat c hc with h3 | h3 | h3 | h3 | h3 | h3 | h3 | h3 <;> omega

theorem sep_false_of_digit (c : Char) (h : isDigitCh c = true) :
    isSepCh c = false := by
  by_contra hc
  rw [Bool.not_eq_false] at hc
  rcases (isDigitCh_iff c).mp h with ⟨h1, h2⟩
  rcases sep_toNat c hc with h3 | h3 | h3 | h3 | h3 | h3 | h3 | h3 <;> omega

theorem jsToLower_jsToUpper_letter (c : Char)
    (h : (isUpperAZ c || isLowerAZ c) = true) :
    jsToLower (jsToUpper c) = jsToLower c := by
  rcases Bool.or_eq_true_iff.mp h with hu | hl
  · rw [jsToUpper_eq_of_not_lower c (lower_false_of_upper c hu)]
  · rcases (isLowerAZ_iff c).mp hl with ⟨h1, h2⟩
    have hup : isUpperAZ (jsToUpper c) = true := upper_jsToUpper_of_lower c hl
    rw [jsToLower_eq_of_not_upper c (upper_false_of_lower c hl)]
    rw [charEq_iff, jsToLower_toNat_of_upper _ hup, jsToUpper_toNat_of_lower c hl]
    omega

/-! ## Structure lemmas for the conversion passes -/

theorem mem_caseConvTail (prev : Char) (l : List Char) (d : Char)
    (hd : d ∈ caseConvTail prev l) : ∃ c ∈ l, d = c ∨ d = jsToUpper c := by
  induction l generalizing prev with
  | nil => cases hd
  | cons c rest ih =>
    have heq : caseConvTail prev (c :: rest) =
        (if isUpperAZ c || (isWordCh c && !isWordCh prev) then jsToUpper c else c) ::
          caseConvTail c rest := rfl
    rw [heq] at hd
    rcases List.mem_cons.mp hd with hd | hd
    · by_cases hif : (isUpperAZ c || (isWordCh c && !isWordCh prev)) = true
      · rw [if_pos hif] at hd
        exact ⟨c, by simp, Or.inr hd⟩
      · rw [if_neg hif] at hd
        exact ⟨c, by simp, Or.inl hd⟩
    · obtain ⟨c2, hm, h2⟩ := ih c hd
      exact ⟨c2, by simp [hm], h2⟩

theorem stripSeps_cons_sep (c : Char) (l : List Char) (h : isSepCh c = true) :
    stripSeps (c :: l) = stripSeps l := by
  by_cases hw : isWsCh c = true
  · simp [stripSeps, List.filter, hw]
  · have hd : c = '-' ∨ c = '_' := by
      simp [isSepCh, hw] at h
      tauto
    rcases hd with hd | hd <;> subst hd <;> simp [stripSeps, List.filter]

theorem stripSeps_cons_keep (c : Char) (l : List Char) (h : isSepCh c = false) :
    stripSeps (c :: l) = c :: stripSeps l := by
  simp [isSepCh] at h
  obtain ⟨⟨h1, h2⟩, h3⟩ := h
  simp [stripSeps, List.filter, h1, h2, h3]

/-! ## Claim C7 -/

/-- Claim C7, counterexample: the derived pascal name of 123abc starts with a
digit and fails the anchored pattern, and the camel name of -foo differs from
the pascal name with its first character lowercased (both are Foo, since the
offset zero lowercasing never fires when the text starts with a separator). -/
theorem C7_case_conversion_cex :
    pascalIdentTest (toPascalCase (cs "123abc")) = false ∧
    camelCase (cs "-foo") ≠ specLowerFirst (toPascalCase (cs "-foo")) := by decide

/-- Claim C7, amended: for every input that starts with an ASCII letter and
contains only ASCII letters, digits, and separator characters (whitespace,
hyphen, underscore), the derived pascal name matches the anchored pattern of
an uppercase letter followed by alphanumerics, and the camel name equals the
pascal name with its first character lowercased. -/
theorem C7_case_conversion_amended (c0 : Char) (t : List Char)
    (hc0 : (isUpperAZ c0 || isLowerAZ c0) = true)
    (hall : ∀ ch ∈ t, (isUpperAZ ch || isLowerAZ ch || isDigitCh ch || isSepCh ch) = true) :
    pascalIdentTest (toPascalCase (c0 :: t)) = true ∧
    camelCase (c0 :: t) = specLowerFirst (toPascalCase (c0 :: t)) := by
  have hword : isWordCh c0 = true := by
    rcases Bool.or_eq_true_iff.mp hc0 with h | h <;> simp [isWordCh, h]
  have hpas : toPascalCase (c0 :: t) = jsToUpper c0 :: stripSeps (caseConvTail c0 t) := by
    have h1 : pass1Pascal (c0 :: t) = jsToUpper c0 :: caseConvTail c0 t := by
      simp [pass1Pascal, hword]
    rw [toPascalCase, h1, stripSeps_cons_keep]
    rcases Bool.or_eq_true_iff.mp hc0 with h | h
    · rw [jsToUpper_eq_of_not_lower c0 (lower_false_of_upper c0 h)]
      exact sep_false_of_upper c0 h
    · exact sep_false_of_upper _ (upper_jsToUpper_of_lower c0 h)
  have hcam : camelCase (c0 :: t) = jsToLower c0 :: stripSeps (caseConvTail c0 t) := by
    have h1 : pass1Camel (c0 :: t) = jsToLower c0 :: caseConvTail c0 t := by
      simp [pass1Camel, hword]
    rw [camelCase, h1, stripSeps_cons_keep]
    rcases Bool.or_eq_true_iff.mp hc0 with h | h
    · exact sep_false_of_lower _ (lower_jsToLower_of_upper c0 h)
    · rw [jsToLower_eq_of_not_upper c0 (upper_false_of_lower c0 h)]
      exact sep_false_of_lower c0 h
  constructor
  · rw [hpas]
    have hup : isUpperAZ (jsToUpper c0) = true := by
      rcases Bool.or_eq_true_iff.mp hc0 with h | h
      · rw [jsToUpper_eq_of_not_lower c0 (lower_false_of_upper c0 h)]; exact h
      · exact upper_jsToUpper_of_lower c0 h
    simp [pascalIdentTest, hup]
    intro d hd
    have hkeep : isWsCh d = false ∧ ¬(d = '-') ∧ ¬(d = '_') := by
      simp [stripSeps, List.mem_filter] at hd
      tauto
    have hmem : d ∈ caseConvTail c0 t := by
      simp [stripSeps, List.mem_filter] at hd
      tauto
    obtain ⟨c, hc, hdc⟩ := mem_caseConvTail c0 t d hmem
    have hcases : isUpperAZ c = true ∨ isLowerAZ c = true ∨ isDigitCh c = true ∨
        isSepCh c = true := by
      have hh := hall c hc
      simp at hh
      tauto
    rcases hcases with h1 | h1 | h1 | h1
    · have hdeq : d = c := by
        rcases hdc with hdc | hdc
        · exact hdc
        · rw [hdc, jsToUpper_eq_of_not_lower c (lower_false_of_upper c h1)]
      rw [hdeq]
      simp [h1]
    · rcases hdc with hdc | hdc
      · rw [hdc]; simp [h1]
      · rw [hdc]; simp [upper_jsToUpper_of_lower c h1]
    · have hdeq : d = c := by
        rcases hdc with hdc | hdc
        · exact hdc
        · rw [hdc, jsToUpper_eq_of_not_lower c (lower_false_of_digit c h1)]
      rw [hdeq]
      simp [h1]
    · have hdeq : d = c := by
        rcases hdc with hdc | hdc
        · exact hdc
        · rw [hdc, jsToUpper_eq_of_not_lower c (lower_false_of_sep c h1)]
      exfalso
      rw [hdeq] at hkeep
      simp [isSepCh, hkeep.2.1, hkeep.2.2, hkeep.1] at h1
  · rw [hcam, hpas]
    simp [specLowerFirst]
    rw [jsToLower_jsToUpper_letter c0 hc0]

/-- Claim C7 witness: the amended theorem applied to the input my posts. -/
theorem C7_case_conversion_witness :
    pascalIdentTest (toPascalCase ('m' :: cs "y posts")) = true ∧
    camelCase ('m' :: cs "y posts") =
      specLowerFirst (toPascalCase ('m' :: cs "y posts")) := by
  have h := C7_case_conversion_amended 'm' (cs "y posts") (by decide) (by decide)
  exact ⟨h.1, h.2⟩

/-! ## Lemma about the interactive name prompt -/

theorem promptForName_all_invalid (responses : List (List Char))
    (h : ∀ ansr ∈ responses, promptNameValidate ansr ≠ .ok) :
    (promptForName responses).2 = none ∧
    ∀ eff ∈ (promptForName responses).1,
      eff = CmdEffect.promptName ∨ eff = CmdEffect.rejectName := by
  induction responses with
  | nil =>
    refine ⟨rfl, ?_⟩
    intro eff he
    simp [promptForName] at he
    simp [he]
  | cons ansr rest ih =>
    have hne := h ansr (by simp)
    obtain ⟨h1, h2⟩ := ih (fun a ha => h a (by simp [ha]))
    cases hv : promptNameValidate ansr with
    | ok => exact absurd hv hne
    | errRequired =>
      have heq : promptForName (ansr :: rest) =
          (.promptName :: .rejectName :: (promptForName rest).1,
            (promptForName rest).2) := by
        simp [promptForName, hv]
      rw [heq]
      refine ⟨h1, ?_⟩
      intro eff he
      rcases List.mem_cons.mp he with he | he
      · exact Or.inl he
      rcases List.mem_cons.mp he with he | he
      · exact Or.inr he
      · exact h2 eff he
    | errPascal =>
      have heq : promptForName (ansr :: rest) =
          (.promptName :: .rejectName :: (promptForName rest).1,
            (promptForName rest).2) := by
        simp [promptForName, hv]
      rw [heq]
      refine ⟨h1, ?_⟩
      intro eff he
      rcases List.mem_cons.mp he with he | he
      · exact Or.inl he
      rcases List.mem_cons.mp he with he | he
      · exact Or.inr he
      · exact h2 eff he

/-! ## Claim C8 -/

/-- Claim C8, counterexample: a name supplied as a command argument is never
validated: for the argument 123abc, whose inline pascal form fails the
anchored pattern, the run contains no rejection and creates the collections
directory and the collection directory before anything else. -/
theorem C8_arg_name_unvalidated_cex :
    pascalIdentTest (inlinePascal (cs "123abc")) = false ∧
    generateCollectionCommand (some (cs "123abc")) [] "src/collections" =
      [.ensureDir "src/collections", .ensureDir "src/collections/123abc",
       .writeFile "src/collections/123abc/index.ts",
       .logInfo "update payload config instructions"] := by decide

/-- Claim C8, amended: only interactively supplied names are validated: the
prompt validator rejects every input whose pascal form fails the anchored
pattern, a run whose interactive answers are all rejected performs no
directory creation and no file write, and a run with an argument name never
rejects anything, whatever the name. -/
theorem C8_validation_only_interactive (input name : List Char)
    (responses : List (List Char)) (dir : String) :
    (pascalIdentTest (promptPascal input) = false → promptNameValidate input ≠ .ok) ∧
    ((∀ ansr ∈ responses, promptNameValidate ansr ≠ .ok) →
      ∀ p, CmdEffect.ensureDir p ∉ generateCollectionCommand none responses dir ∧
        CmdEffect.writeFile p ∉ generateCollectionCommand none responses dir) ∧
    CmdEffect.rejectName ∉ generateCollectionCommand (some name) responses dir := by
  refine ⟨?_, ?_, ?_⟩
  · intro h
    unfold promptNameValidate
    by_cases he : (trimStr input).isEmpty
    · simp [he]
    · simp [he, h]
  · intro hall p
    obtain ⟨h1, h2⟩ := promptForName_all_invalid responses hall
    have heq : generateCollectionCommand none responses dir =
        (promptForName responses).1 := by
      simp [generateCollectionCommand, h1]
    constructor <;>
      (rw [heq]; intro hmem; rcases h2 _ hmem with h | h <;> simp at h)
  · by_cases he : name.isEmpty
    · simp [generateCollectionCommand, he]
    · simp [generateCollectionCommand, he, generateFromTemplateRun]

/-- Claim C8 witness: the amended theorem applied to the rejected input
123abc, a blocked interactive run, and an argument run. -/
theorem C8_validation_only_interactive_witness :
    promptNameValidate (cs "123abc") ≠ .ok ∧
    CmdEffect.ensureDir "src/collections" ∉
      generateCollectionCommand none [cs "123abc"] "src/collections" ∧
    CmdEffect.rejectName ∉
      generateCollectionCommand (some (cs "Posts")) [] "src/collections" := by
  have h := C8_validation_only_interactive (cs "123abc") (cs "Posts")
    [cs "123abc"] "src/collections"
  exact ⟨h.1 (by decide), (h.2.1 (by decide) "src/collections").1, h.2.2⟩

/-! ## Claim C9 -/

/-- Claim C9, counterexample: cloning a source tree derived from posts into
Articles rewrites only the top level code file; the nested code file keeps
every occurrence of Posts, although the claim promises every text file in the
copied tree is rewritten.  The file count is preserved. -/
theorem C9_nested_file_not_rewritten_cex :
    toPascalCase (cs "posts") = cs "Posts" ∧
    cloneCollection "posts" cloneSrcTree (cs "Articles") =
      [(["index.ts"], cs "Articles"), (["sub", "nested.ts"], cs "Posts")] := by
  decide

/-- Claim C9, amended: the clone rewrites exactly the files listed by the top
level directory read whose name ends in .ts or .js, applying the global
literal replacement of the pascal case of the source basename by the new
name; every nested file and every file of another extension is copied byte
for byte; the file count of the destination equals that of the source. -/
theorem C9_clone_toplevel_rewrite (sourceBase : String) (src : DirTree)
    (newName : List Char) :
    (cloneCollection sourceBase src newName).length = src.length ∧
    (∀ path content, (path, content) ∈ src →
      ((∀ n, path = [n] → endsWithCode n = false) ∨ 1 < path.length) →
      (path, content) ∈ cloneCollection sourceBase src newName) ∧
    (∀ n content, ([n], content) ∈ src → endsWithCode n = true →
      ([n], replaceAllSub (toPascalCase sourceBase.data) newName content) ∈
        cloneCollection sourceBase src newName) := by
  refine ⟨by simp [cloneCollection], ?_, ?_⟩
  · intro path content hm hcond
    rcases path with _ | ⟨n, path2⟩
    · exact List.mem_map.mpr ⟨([], content), hm, rfl⟩
    · rcases path2 with _ | ⟨m, path3⟩
      · have hcode : endsWithCode n = false := by
          rcases hcond with hc | hc
          · exact hc n rfl
          · simp at hc
        exact List.mem_map.mpr ⟨([n], content), hm, by simp [hcode]⟩
      · exact List.mem_map.mpr ⟨(n :: m :: path3, content), hm, rfl⟩
  · intro n content hm hcode
    exact List.mem_map.mpr ⟨([n], content), hm, by simp [hcode]⟩

/-- Claim C9 witness: the amended theorem applied to the concrete tree: the
nested code file is copied unchanged and the top level code file receives the
replacement. -/
theorem C9_clone_toplevel_rewrite_witness :
    (cloneCollection "posts" cloneSrcTree (cs "Articles")).length =
      cloneSrcTree.length ∧
    (["sub", "nested.ts"], cs "Posts") ∈
      cloneCollection "posts" cloneSrcTree (cs "Articles") ∧
    (["index.ts"],
        replaceAllSub (toPascalCase (cs "posts")) (cs "Articles") (cs "Posts")) ∈
      cloneCollection "posts" cloneSrcTree (cs "Articles") := by
  have h := C9_clone_toplevel_rewrite "posts" cloneSrcTree (cs "Articles")
  exact ⟨h.1,
    h.2.1 ["sub", "nested.ts"] (cs "Posts") (by decide) (Or.inr (by decide)),
    h.2.2 "index.ts" (cs "Posts") (by decide) (by decide)⟩

/-! ## Lemmas for the plugins section construction -/

theorem dropWhile_eq_self_of_head (P : Char → Bool) (s : List Char)
    (h : ∀ ch, s.head? = some ch → P ch = false) : s.dropWhile P = s := by
  cases s with
  | nil => rfl
  | cons c t => simp [List.dropWhile, h c rfl]

theorem head_dropWhile_false (P : Char → Bool) (s : List Char) (d : Char)
    (h : (s.dropWhile P).head? = some d) : P d = false := by
  induction s with
  | nil => simp at h
  | cons c t ih =>
    by_cases hc : P c = true
    · rw [List.dropWhile_cons_of_pos hc] at h
      exact ih h
    · rw [List.dropWhile_cons_of_neg hc] at h
      simp at h
      rw [← h]
      exact Bool.not_eq_true _ |>.mp hc

theorem dropWhile_append_of_non (P : Char → Bool) (x y : List Char)
    (h : ∃ d ∈ x, P d = false) :
    (x ++ y).dropWhile P = x.dropWhile P ++ y := by
  induction x with
  | nil =>
    obtain ⟨d, hd, _⟩ := h
    cases hd
  | cons c t ih =>
    by_cases hc : P c = true
    · have h2 : ∃ d ∈ t, P d = false := by
        obtain ⟨d, hd, hpd⟩ := h
        rcases List.mem_cons.mp hd with hd | hd
        · subst hd; rw [hc] at hpd; cases hpd
        · exact ⟨d, hd, hpd⟩
      simp only [List.cons_append, List.dropWhile_cons_of_pos hc]
      exact ih h2
    · simp only [List.cons_append,
        List.dropWhile_cons_of_neg hc]

theorem dropWhile_ne_nil_of_non (P : Char → Bool) (x : List Char)
    (h : ∃ d ∈ x, P d = false) : ¬(x.dropWhile P = []) := by
  intro hc
  obtain ⟨d, hd, hpd⟩ := h
  have := List.dropWhile_eq_nil_iff.mp hc d hd
  rw [this] at hpd
  cases hpd

theorem all_false_of_non_ws (s : List Char) (h : ∃ d ∈ s, isWsCh d = false) :
    s.all isWsCh = false := by
  cases hall : s.all isWsCh with
  | false => rfl
  | true =>
    obtain ⟨d, hd, hpd⟩ := h
    have := List.all_eq_true.mp hall d hd
    rw [this] at hpd
    cases hpd

theorem removeTrailingComma_append_comma_free (x s : List Char)
    (h : ∀ ch ∈ x, ¬(ch = ',')) :
    removeTrailingComma (x ++ s) = x ++ removeTrailingComma s := by
  induction x with
  | nil => simp
  | cons c t ih =>
    have hc : ¬(c = ',') := h c (by simp)
    have ht : ∀ ch ∈ t, ¬(ch = ',') := fun ch hm => h ch (by simp [hm])
    simp [removeTrailingComma, hc, ih ht]

theorem removeTrailingComma_eq_self_of_comma_free (s : List Char)
    (h : ∀ ch ∈ s, ¬(ch = ',')) : removeTrailingComma s = s := by
  have h2 := removeTrailingComma_append_comma_free s [] h
  simpa [removeTrailingComma] using h2

theorem head?_append_left (a y : List Char) (ha : ¬(a = [])) :
    (a ++ y).head? = a.head? := by
  cases a with
  | nil => exact absurd rfl ha
  | cons c t => rfl

theorem getLast?_append_right (x b : List Char) (hb : ¬(b = [])) :
    (x ++ b).getLast? = b.getLast? := by
  rw [← List.head?_reverse, ← List.head?_reverse, List.reverse_append]
  apply head?_append_left
  simp [hb]

theorem trimStr_eq_self (s : List Char)
    (h1 : ∀ ch, s.head? = some ch → isWsCh ch = false)
    (h2 : ∀ ch, s.getLast? = some ch → isWsCh ch = false) :
    trimStr s = s := by
  unfold trimStr
  rw [dropWhile_eq_self_of_head _ s h1]
  rw [dropWhile_eq_self_of_head]
  · exact s.reverse_reverse
  · intro ch hch
    rw [List.head?_reverse] at hch
    exact h2 ch hch

theorem collapseM_afterMode (m y : List Char) (p : List Char)
    (hc : ∀ ch ∈ m, ¬(ch = ','))
    (hw : ∃ d ∈ m, isWsCh d = false) :
    collapseM (some p) (m ++ y) = p.reverse ++ m ++ collapseM none y := by
  induction m generalizing p with
  | nil =>
    obtain ⟨d, hd, _⟩ := hw
    cases hd
  | cons d m2 ih =>
    have hdc : ¬(d = ',') := hc d (by simp)
    cases hdw : isWsCh d with
    | true =>
      have hw2 : ∃ e ∈ m2, isWsCh e = false := by
        obtain ⟨e, he, hpe⟩ := hw
        rcases List.mem_cons.mp he with he | he
        · subst he; rw [hdw] at hpe; cases hpe
        · exact ⟨e, he, hpe⟩
      have heq : collapseM (some p) ((d :: m2) ++ y) =
          collapseM (some (d :: p)) (m2 ++ y) := by
        simp [collapseM, hdc, hdw]
      rw [heq, ih (d :: p) (fun ch hm => hc ch (by simp [hm])) hw2]
      simp
    | false =>
      have heq : collapseM (some p) ((d :: m2) ++ y) =
          p.reverse ++ d :: collapseM none (m2 ++ y) := by
        simp [collapseM, hdc, hdw]
      rw [heq,
        collapseM_append_of_comma_free m2 y (fun ch hm => hc ch (by simp [hm]))]
      simp

theorem mem_of_getLast?_eq (l : List Char) (a : Char) (h : l.getLast? = some a) :
    a ∈ l := by
  rw [← List.head?_reverse] at h
  have h2 : a ∈ l.reverse := by
    cases hr : l.reverse with
    | nil => rw [hr] at h; cases h
    | cons c t =>
      rw [hr] at h
      simp at h
      simp [hr, h]
  exact List.mem_reverse.mp h2

theorem getLast?_of_ne_nil (l : List Char) (h : ¬(l = [])) :
    ∃ a, l.getLast? = some a := by
  cases hl : l.getLast? with
  | none => exact absurd (List.getLast?_eq_none_iff.mp hl) h
  | some a => exact ⟨a, rfl⟩

theorem collapseM_two_entry_mid (a b y : List Char)
    (haC : ∀ ch ∈ a, ¬(ch = ',')) (hbC : ∀ ch ∈ b, ¬(ch = ','))
    (hbW : ∃ d ∈ b, isWsCh d = false) :
    collapseM none ((a ++ cs ", " ++ b) ++ y) =
      (a ++ cs ", " ++ b) ++ collapseM none y := by
  have hsh : (a ++ cs ", " ++ b) ++ y = a ++ (',' :: ((' ' :: b) ++ y)) := by
    simp [cs]
  rw [hsh, collapseM_append_of_comma_free a _ haC]
  have hstep : collapseM none (',' :: ((' ' :: b) ++ y)) =
      ',' :: collapseM (some []) ((' ' :: b) ++ y) := by
    simp [collapseM]
  rw [hstep, collapseM_afterMode (' ' :: b) y []
    (by
      intro ch hm
      rcases List.mem_cons.mp hm with hm | hm
      · subst hm; decide
      · exact hbC ch hm)
    (by
      obtain ⟨d, hd, hpd⟩ := hbW
      exact ⟨d, by simp [hd], hpd⟩)]
  simp [cs]

theorem remRB_two_entry_mid (b y : List Char)
    (hbC : ∀ ch ∈ b, ¬(ch = ','))
    (hbW : ∃ d ∈ b, isWsCh d = false)
    (hbRB : ∀ ch ∈ b, ¬(ch = ']')) :
    remCommaBeforeRB ((cs ", " ++ b) ++ y) =
      (cs ", " ++ b) ++ remCommaBeforeRB y := by
  have hsh : (cs ", " ++ b) ++ y = ',' :: (' ' :: (b ++ y)) := by simp [cs]
  have hdw : (b ++ y).dropWhile isWsCh = b.dropWhile isWsCh ++ y :=
    dropWhile_append_of_non isWsCh b y hbW
  obtain ⟨d, r2, hdr⟩ : ∃ d r2, b.dropWhile isWsCh = d :: r2 := by
    cases hcase : b.dropWhile isWsCh with
    | nil => exact absurd hcase (dropWhile_ne_nil_of_non isWsCh b hbW)
    | cons d r2 => exact ⟨d, r2, rfl⟩
  have hdmem : d ∈ b := (b.dropWhile_sublist isWsCh).subset (by simp [hdr])
  have hdrb : ¬(d = ']') := hbRB d hdmem
  have hskip : skipWsThenRB (' ' :: (b ++ y)) = none := by
    unfold skipWsThenRB
    have : (' ' :: (b ++ y)).dropWhile isWsCh = (d :: r2) ++ y := by
      rw [List.dropWhile_cons_of_pos (by decide), hdw, hdr]
    rw [this]
    simp [hdrb]
  rw [hsh]
  have hstep : remCommaBeforeRB (',' :: (' ' :: (b ++ y))) =
      ',' :: remCommaBeforeRB (' ' :: (b ++ y)) := by
    simp [remCommaBeforeRB, hskip]
  rw [hstep]
  have hstep2 : remCommaBeforeRB (' ' :: (b ++ y)) =
      ' ' :: remCommaBeforeRB (b ++ y) := by
    simp [remCommaBeforeRB]
  rw [hstep2, remCommaBeforeRB_append_of_comma_free b y hbC]
  simp [cs]

theorem remLB_section (a b snip : List Char)
    (ha_ne : ¬(a = []))
    (haH : ∀ ch, a.head? = some ch → isWsCh ch = false)
    (haC : ∀ ch ∈ a, ¬(ch = ','))
    (haLB : ∀ ch ∈ a, ¬(ch = '[')) (hbLB : ∀ ch ∈ b, ¬(ch = '['))
    (hs3 : remCommaAfterLB (snip ++ cs "]") = snip ++ cs "]") :
    remCommaAfterLB
        (cs "plugins: [" ++ a ++ cs ", " ++ b ++ cs "," ++ snip ++ cs "]") =
      cs "plugins: [" ++ a ++ cs ", " ++ b ++ cs "," ++ snip ++ cs "]" := by
  obtain ⟨a0, a2, ha⟩ : ∃ a0 a2, a = a0 :: a2 := by
    cases a with
    | nil => exact absurd rfl ha_ne
    | cons a0 a2 => exact ⟨a0, a2, rfl⟩
  subst ha
  have ha0w : isWsCh a0 = false := haH a0 rfl
  have ha0c : ¬(a0 = ',') := haC a0 (by simp)
  have ha0lb : ¬(a0 = '[') := haLB a0 (by simp)
  have hc1 : cs ", " = [',', ' '] := rfl
  have hc2 : cs "," = [','] := rfl
  have hplb : cs "plugins: [" = cs "plugins: " ++ ['['] := rfl
  have hsh : cs "plugins: [" ++ (a0 :: a2) ++ cs ", " ++ b ++ cs "," ++ snip ++ cs "]" =
      cs "plugins: " ++
        ('[' :: (a0 :: (a2 ++ ',' :: ' ' :: (b ++ ',' :: (snip ++ cs "]"))))) := by
    simp [hplb, hc1, hc2]
  rw [hsh, remCommaAfterLB_append_of_lb_free (cs "plugins: ") _ (by decide)]
  have hskip : skipWsThenComma
      (a0 :: (a2 ++ ',' :: ' ' :: (b ++ ',' :: (snip ++ cs "]")))) = none := by
    unfold skipWsThenComma
    rw [List.dropWhile_cons_of_neg (by simp [ha0w])]
    simp [ha0c]
  have hstep : remCommaAfterLB
      ('[' :: (a0 :: (a2 ++ ',' :: ' ' :: (b ++ ',' :: (snip ++ cs "]"))))) =
      '[' :: remCommaAfterLB
        (a0 :: (a2 ++ ',' :: ' ' :: (b ++ ',' :: (snip ++ cs "]")))) := by
    conv_lhs => rw [remCommaAfterLB]
    simp [hskip]
  rw [hstep]
  have hpfree : ∀ ch ∈ (a0 :: (a2 ++ ',' :: ' ' :: (b ++ [',']))), ¬(ch = '[') := by
    intro ch hm hch
    subst hch
    simp at hm
    rcases hm with hm | hm | hm
    · exact ha0lb hm.symm
    · exact haLB '[' (by simp [hm]) rfl
    · exact hbLB '[' hm rfl
  have hshp : (a0 :: (a2 ++ ',' :: ' ' :: (b ++ ',' :: (snip ++ cs "]")))) =
      (a0 :: (a2 ++ ',' :: ' ' :: (b ++ [',']))) ++ (snip ++ cs "]") := by
    simp
  rw [hshp, remCommaAfterLB_append_of_lb_free _ _ hpfree, hs3]

theorem collapse_section (a b snip : List Char)
    (haC : ∀ ch ∈ a, ¬(ch = ',')) (hbC : ∀ ch ∈ b, ¬(ch = ','))
    (hbW : ∃ d ∈ b, isWsCh d = false)
    (hs1 : collapseCommas (cs "," ++ snip ++ cs "]") = cs "," ++ snip ++ cs "]") :
    collapseCommas
        (cs "plugins: [" ++ a ++ cs ", " ++ b ++ cs "," ++ snip ++ cs "]") =
      cs "plugins: [" ++ a ++ cs ", " ++ b ++ cs "," ++ snip ++ cs "]" := by
  unfold collapseCommas at hs1 ⊢
  have hsh : cs "plugins: [" ++ a ++ cs ", " ++ b ++ cs "," ++ snip ++ cs "]" =
      cs "plugins: [" ++ ((a ++ cs ", " ++ b) ++ (cs "," ++ snip ++ cs "]")) := by
    simp
  rw [hsh, collapseM_append_of_comma_free (cs "plugins: [") _ (by decide),
    collapseM_two_entry_mid a b _ haC hbC hbW, hs1]

theorem remRB_section (a b snip : List Char)
    (haC : ∀ ch ∈ a, ¬(ch = ',')) (hbC : ∀ ch ∈ b, ¬(ch = ','))
    (hbW : ∃ d ∈ b, isWsCh d = false)
    (hbRB : ∀ ch ∈ b, ¬(ch = ']'))
    (hs2 : remCommaBeforeRB (cs "," ++ snip ++ cs "]") = cs "," ++ snip ++ cs "]") :
    remCommaBeforeRB
        (cs "plugins: [" ++ a ++ cs ", " ++ b ++ cs "," ++ snip ++ cs "]") =
      cs "plugins: [" ++ a ++ cs ", " ++ b ++ cs "," ++ snip ++ cs "]" := by
  have hfree : ∀ ch ∈ cs "plugins: [" ++ a, ¬(ch = ',') := by
    intro ch hm hch
    subst hch
    rcases List.mem_append.mp hm with hm | hm
    · revert hm; decide
    · exact haC ',' hm rfl
  have hsh : cs "plugins: [" ++ a ++ cs ", " ++ b ++ cs "," ++ snip ++ cs "]" =
      (cs "plugins: [" ++ a) ++ ((cs ", " ++ b) ++ (cs "," ++ snip ++ cs "]")) := by
    simp
  rw [hsh, remCommaBeforeRB_append_of_comma_free (cs "plugins: [" ++ a) _ hfree,
    remRB_two_entry_mid b _ hbC hbW hbRB, hs2]

theorem cleanedPluginsOf_two_entry (a b : List Char)
    (ha_ne : ¬(a = [])) (hb_ne : ¬(b = []))
    (haC : ∀ ch ∈ a, ¬(ch = ',')) (hbC : ∀ ch ∈ b, ¬(ch = ','))
    (haH : ∀ ch, a.head? = some ch → isWsCh ch = false)
    (hbL : ∀ ch, b.getLast? = some ch → isWsCh ch = false) :
    cleanedPluginsOf (a ++ cs ", " ++ b) = a ++ cs ", " ++ b := by
  have hbW : ∃ d ∈ b, isWsCh d = false := by
    obtain ⟨d, hd⟩ := getLast?_of_ne_nil b hb_ne
    exact ⟨d, mem_of_getLast?_eq b d hd, hbL d hd⟩
  unfold cleanedPluginsOf
  have hcol : collapseCommas (a ++ cs ", " ++ b) = a ++ cs ", " ++ b := by
    unfold collapseCommas
    conv_lhs =>
      rw [show a ++ cs ", " ++ b = (a ++ cs ", " ++ b) ++ [] from
        (List.append_nil _).symm]
    rw [collapseM_two_entry_mid a b [] haC hbC hbW]
    simp [collapseM]
  rw [hcol]
  have hrt : removeTrailingComma (a ++ cs ", " ++ b) = a ++ cs ", " ++ b := by
    have hsh : a ++ cs ", " ++ b = a ++ (',' :: (' ' :: b)) := by
      simp [show cs ", " = [',', ' '] from rfl]
    rw [hsh, removeTrailingComma_append_comma_free a _ haC]
    have hall : (' ' :: b).all isWsCh = false := by
      apply all_false_of_non_ws
      obtain ⟨d, hd, hw⟩ := hbW
      exact ⟨d, by simp [hd], hw⟩
    have hstep : removeTrailingComma (',' :: (' ' :: b)) =
        ',' :: removeTrailingComma (' ' :: b) := by
      simp [removeTrailingComma, hall]
    rw [hstep]
    have hstep2 : removeTrailingComma (' ' :: b) = ' ' :: removeTrailingComma b := by
      simp [removeTrailingComma]
    rw [hstep2, removeTrailingComma_eq_self_of_comma_free b hbC]
  rw [hrt]
  have hane2 : ¬(a ++ cs ", " = []) := by
    intro hx
    have hlen := congrArg List.length hx
    simp [cs] at hlen
  apply trimStr_eq_self
  · intro ch hch
    rw [head?_append_left (a ++ cs ", ") b hane2, head?_append_left a _ ha_ne] at hch
    exact haH ch hch
  · intro ch hch
    rw [getLast?_append_right (a ++ cs ", ") b hb_ne] at hch
    exact hbL ch hch

theorem mkNewSection_two_entry (r : PluginRegistration) (a b : List Char)
    (ha_ne : ¬(a = [])) (hb_ne : ¬(b = []))
    (haC : ∀ ch ∈ a, ¬(ch = ',')) (hbC : ∀ ch ∈ b, ¬(ch = ','))
    (haH : ∀ ch, a.head? = some ch → isWsCh ch = false)
    (hbL : ∀ ch, b.getLast? = some ch → isWsCh ch = false) :
    mkNewSection r (a ++ cs ", " ++ b) =
      cs "plugins: [" ++ a ++ cs ", " ++ b ++ cs "," ++ r.pluginConfig ++ cs "]" := by
  unfold mkNewSection
  rw [cleanedPluginsOf_two_entry a b ha_ne hb_ne haC hbC haH hbL]
  have hne : (a ++ cs ", " ++ b).isEmpty = false := by
    cases a with
    | nil => exact absurd rfl ha_ne
    | cons c t => rfl
  simp only [hne, Bool.false_eq_true, if_false]
  simp [show cs "," = [','] from rfl]

/-! ## Claim C5 -/

/-- Claim C5: when the patcher locates a plugins list whose body does not pass
the plugin presence test, the patched text is the text around the match with
the new section spliced in; an empty body yields the section with the snippet
and no leading separator; a two entry body a, b (entries nonempty, free of
commas and brackets, not beginning or ending in whitespace, with a snippet
that is itself separator clean against its closing context) yields the
section listing exactly a, b and the snippet, and that section contains no
doubled comma, no comma after an opening bracket and no comma before a
closing bracket: the three cleanup passes leave it unchanged. -/
theorem C5_plugins_list_patch (r : PluginRegistration)
    (c before inner after : List Char)
    (himp : importTest r.pluginName r.packageName c = true)
    (hfind : pluginsFind c = some (before, inner, after))
    (hhas : pluginTest r.pluginName inner = false)
    (hclean : cleanupContent (before ++ mkNewSection r inner ++ after) =
      before ++ mkNewSection r inner ++ after) :
    updatePayloadConfig r c = before ++ mkNewSection r inner ++ after ∧
    (inner = [] →
      mkNewSection r inner = cs "plugins: [" ++ r.pluginConfig ++ cs "]") ∧
    (∀ a b : List Char, inner = a ++ cs ", " ++ b →
      ¬(a = []) → ¬(b = []) →
      (∀ ch ∈ a, ¬(ch = ',')) → (∀ ch ∈ b, ¬(ch = ',')) →
      (∀ ch ∈ a, ¬(ch = '[')) → (∀ ch ∈ b, ¬(ch = '[')) →
      (∀ ch ∈ b, ¬(ch = ']')) →
      (∀ ch, a.head? = some ch → isWsCh ch = false) →
      (∀ ch, b.getLast? = some ch → isWsCh ch = false) →
      collapseCommas (cs "," ++ r.pluginConfig ++ cs "]") =
        cs "," ++ r.pluginConfig ++ cs "]" →
      remCommaBeforeRB (cs "," ++ r.pluginConfig ++ cs "]") =
        cs "," ++ r.pluginConfig ++ cs "]" →
      remCommaAfterLB (r.pluginConfig ++ cs "]") = r.pluginConfig ++ cs "]" →
      mkNewSection r inner =
        cs "plugins: [" ++ a ++ cs ", " ++ b ++ cs "," ++ r.pluginConfig ++ cs "]" ∧
      collapseCommas (mkNewSection r inner) = mkNewSection r inner ∧
      remCommaAfterLB (mkNewSection r inner) = mkNewSection r inner ∧
      remCommaBeforeRB (mkNewSection r inner) = mkNewSection r inner) := by
  refine ⟨?_, ?_, ?_⟩
  · unfold updatePayloadConfig addImportStep pluginsStep
    simp only [himp, if_true]
    rw [hfind]
    simp only [hhas, Bool.false_eq_true, if_false]
    exact hclean
  · intro h
    subst h
    rfl
  · intro a b hinner ha_ne hb_ne haC hbC haLB hbLB hbRB haH hbL hs1 hs2 hs3
    subst hinner
    have hbW : ∃ d ∈ b, isWsCh d = false := by
      obtain ⟨d, hd⟩ := getLast?_of_ne_nil b hb_ne
      exact ⟨d, mem_of_getLast?_eq b d hd, hbL d hd⟩
    have hS := mkNewSection_two_entry r a b ha_ne hb_ne haC hbC haH hbL
    refine ⟨hS, ?_, ?_, ?_⟩
    · rw [hS]
      exact collapse_section a b r.pluginConfig haC hbC hbW hs1
    · rw [hS]
      exact remLB_section a b r.pluginConfig ha_ne haH haC haLB hbLB hs3
    · rw [hS]
      exact remRB_section a b r.pluginConfig haC hbC hbW hbRB hs2

/-- Claim C5 witness: the theorem applied to content with an import already
present and the two entry list a, b inside a builder call. -/
theorem C5_plugins_list_patch_witness :
    updatePayloadConfig tinyReg twoEntryContent =
      (mkImportLine tinyReg ++ cs "export default buildConfig(\x7b ") ++
        mkNewSection tinyReg (cs "a, b") ++ cs " \x7d)" ∧
    mkNewSection tinyReg (cs "a, b") =
      cs "plugins: [" ++ ['a'] ++ cs ", " ++ ['b'] ++ cs "," ++
        tinyReg.pluginConfig ++ cs "]" ∧
    collapseCommas (mkNewSection tinyReg (cs "a, b")) =
      mkNewSection tinyReg (cs "a, b") ∧
    remCommaBeforeRB (mkNewSection tinyReg (cs "a, b")) =
      mkNewSection tinyReg (cs "a, b") := by
  have h := C5_plugins_list_patch tinyReg twoEntryContent
    (mkImportLine tinyReg ++ cs "export default buildConfig(\x7b ")
    (cs "a, b") (cs " \x7d)") (by decide) (by decide) (by decide) (by decide)
  have h3 := h.2.2 ['a'] ['b'] (by decide) (by decide) (by decide) (by decide)
    (by decide) (by decide) (by decide) (by decide) (by decide) (by decide)
    (by decide) (by decide) (by decide)
  exact ⟨h.1, h3.1, h3.2.1, h3.2.2.2⟩
